import Mathlib

/-!
# CaskDB-net: wire codec, command registry, interactive shell and handlers

A shallow embedding of `client/client.go` and of `server/server.go`: the
codec, the command table and its arity check, the shell's tokenizer, the
request cycle and the keep-alive of the client; the argument splitting, the 43
handlers, their registration and the configuration of the server.

Conventions of the embedding

* A Go `byte` is a `Fin 256`; a `[]byte` is a `List Byte`.
* A Go `uint32` is a natural number below `2 ^ 32`; the conversion `uint32(n)`
  of a wider integer is `n % 2 ^ 32`, the conversion `byte(n)` is `n % 256`.
* A Go `string` read from the terminal is text: a Lean `String`, whose bytes
  are its UTF-8 encoding (`stringBytes`).
* Go functions that return `(value, error)` return `Except`.
-/

namespace CaskDBNet

/-! ## Bytes and fixed-width integers -/

/-- One byte of a Go byte slice. -/
abbrev Byte := Fin 256

/-- The Go conversion `byte(v)`: the low eight bits of `v`. -/
def byte (v : Nat) : Byte := ⟨v % 256, Nat.mod_lt v (by decide)⟩

/-- The Go conversion `uint32(n)` of a non-negative integer. -/
def uint32 (n : Nat) : Nat := n % 2 ^ 32

/-- The errors `io.ReadFull` reports on a short read. -/
inductive IOError where
  | EOF
  | ErrUnexpectedEOF
  deriving DecidableEq, Repr

/-- Go `binary.LittleEndian.PutUint32`:
`b[0] = byte(v); b[1] = byte(v >> 8); b[2] = byte(v >> 16); b[3] = byte(v >> 24)`. -/
def putUint32 (v : Nat) : List Byte :=
  [byte v, byte (v >>> 8), byte (v >>> 16), byte (v >>> 24)]

/-- Go `binary.LittleEndian.Uint32`:
`uint32(b[0]) | uint32(b[1])<<8 | uint32(b[2])<<16 | uint32(b[3])<<24`. -/
def getUint32 (b0 b1 b2 b3 : Byte) : Nat :=
  ((b0.val ||| (b1.val <<< 8)) ||| (b2.val <<< 16)) ||| (b3.val <<< 24)

/-- Go `binary.Write(buf, binary.LittleEndian, v)` for a `uint32` value on a
`bytes.Buffer`: appends the four bytes; a `bytes.Buffer` write reports no error. -/
def binaryWriteUint32 (buf : List Byte) (v : Nat) : Except IOError (List Byte) :=
  .ok (buf ++ putUint32 v)

/-- Go `binary.Write(buf, binary.LittleEndian, data)` for a `[]byte` value on a
`bytes.Buffer`: appends the bytes unchanged. -/
def binaryWriteBytes (buf : List Byte) (data : List Byte) : Except IOError (List Byte) :=
  .ok (buf ++ data)

/-- Go `binary.Read(buf, binary.LittleEndian, &x)` for a `uint32` target on a
`bytes.Buffer`: `io.ReadFull` of four bytes, which fails with `EOF` on an empty
buffer and with `ErrUnexpectedEOF` on one to three bytes. Returns the value and
the unread rest of the buffer. -/
def binaryReadUint32 (buf : List Byte) : Except IOError (Nat × List Byte) :=
  match buf with
  | b0 :: b1 :: b2 :: b3 :: rest => .ok (getUint32 b0 b1 b2 b3, rest)
  | [] => .error .EOF
  | _ => .error .ErrUnexpectedEOF

/-! ## Wire codec (client/client.go) -/

/-- The `Message` struct of the client. -/
structure Message where
  id : Nat
  length : Nat
  data : List Byte
  deriving DecidableEq, Repr

/-- The function `Pack` of client.go: three `binary.Write` calls on a fresh
buffer, each error returned at once. -/
def Pack (id : Nat) (data : List Byte) : Except IOError (List Byte) := do
  let buf : List Byte := []
  let buf ← binaryWriteUint32 buf id
  let buf ← binaryWriteUint32 buf (uint32 data.length)
  let buf ← binaryWriteBytes buf data
  return buf

/-- The function `UnPack` of client.go: reads `id` and `length` from the front
of the input; `data` stays the zero value. -/
def UnPack (data : List Byte) : Except IOError Message := do
  let (id, buf) ← binaryReadUint32 data
  let (length, _) ← binaryReadUint32 buf
  return { id := id, length := length, data := [] }

/-! ### Specification side of the codec -/

/-- The value a byte string denotes when read little-endian: byte `i` has
weight `256 ^ i`. -/
def leValue : List Byte → Nat
  | [] => 0
  | b :: bs => b.val + 256 * leValue bs

/-- A byte string is the four-byte little-endian encoding of `n`. -/
def IsLE32 (bs : List Byte) (n : Nat) : Prop :=
  bs.length = 4 ∧ leValue bs = n

instance (bs : List Byte) (n : Nat) : Decidable (IsLE32 bs n) := by
  unfold IsLE32; infer_instance

/-- A payload of exactly `2 ^ 32` zero bytes: the shortest one whose length
does not fit the `uint32` length field. -/
def oversizedPayload : List Byte := List.replicate (2 ^ 32) 0

/-! ## Command registry (client/client.go, server/server.go) -/

/-- The map `commands` of client.go, name to id, in source order. -/
def commands : List (String × Nat) :=
  [("set", 0), ("mset", 1), ("setnx", 2), ("msetnx", 3),
   ("get", 4), ("mget", 5), ("getset", 6), ("remove", 7),
   ("slen", 8), ("hset", 9), ("hsetnx", 10), ("hget", 11),
   ("hgetall", 12), ("hdel", 13), ("hlen", 14), ("hexist", 15),
   ("lpush", 16), ("lrpush", 17), ("lpop", 18), ("lrPop", 19),
   ("linsert", 20), ("lrinsert", 21), ("lset", 22), ("lrem", 23),
   ("llen", 24), ("lindex", 25), ("lrange", 26), ("lexist", 27),
   ("sadd", 28), ("srem", 29), ("smove", 30), ("sunion", 31),
   ("sdiff", 32), ("sscan", 33), ("scard", 34), ("sismember", 35),
   ("zadd", 36), ("zrem", 37), ("zscorerange", 38), ("zscore", 39),
   ("zcard", 40), ("zismember", 41), ("ztop", 42)]

/-- A Go map read `v, ok := m[key]`: `none` when the key is absent. -/
def mapLookup (m : List (String × Nat)) (key : String) : Option Nat :=
  match m with
  | [] => none
  | (k, v) :: rest => if k = key then some v else mapLookup rest key

/-- The function `checkCommand` of client.go. `command[0]` on an empty slice
is a run-time panic, here `none`. A `switch` case that does not return falls
out of the `switch` to the final `return true`. -/
def checkCommand (command : List String) : Option Bool := do
  let c0 ← command.head?
  if (mapLookup commands c0).isNone then
    return false
  match c0 with
  | "set" =>
    if command.length != 3 then
      return false
  | "mset" =>
    if command.length < 3 then
      return false
  | "setnx" =>
    if command.length != 3 then
      return false
  | "get" =>
    if command.length != 2 then
      return false
  | "mget" =>
    if command.length < 2 then
      return false
  | "getset" =>
    if command.length != 3 then
      return false
  | "remove" =>
    if command.length != 2 then
      return false
  | "slen" =>
    if command.length != 1 then
      return false
  | "hset" =>
    if command.length != 4 then
      return false
  | "hsetnx" =>
    if command.length != 4 then
      return false
  | "hget" =>
    if command.length != 3 then
      return false
  | "hgetall" =>
    if command.length != 2 then
      return false
  | "hdel" =>
    if command.length != 3 then
      return false
  | "hlen" =>
    if command.length != 2 then
      return false
  | "hexist" =>
    if command.length != 3 then
      return false
  | "lpush" =>
    if command.length < 3 then
      return false
  | "lrpush" =>
    if command.length < 3 then
      return false
  | "lpop" =>
    if command.length != 2 then
      return false
  | "lrpop" =>
    if command.length != 2 then
      return false
  | "linsert" =>
    if command.length != 4 then
      return false
  | "lrinsert" =>
    if command.length != 4 then
      return false
  | "lset" =>
    if command.length != 4 then
      return false
  | "lrem" =>
    if command.length != 4 then
      return false
  | "llen" =>
    if command.length != 2 then
      return false
  | "lindex" =>
    if command.length != 3 then
      return false
  | "lrange" =>
    if command.length != 4 then
      return false
  | "lexist" =>
    if command.length != 3 then
      return false
  | "sadd" =>
    if command.length < 3 then
      return false
  | "srem" =>
    if command.length != 3 then
      return false
  | "smove" =>
    if command.length != 4 then
      return false
  | "sunion" =>
    if command.length < 2 then
      return false
  | "sdiff" =>
    if command.length < 2 then
      return false
  | "sscan" =>
    if command.length != 2 then
      return false
  | "scard" =>
    if command.length != 2 then
      return false
  | "sismember" =>
    if command.length != 3 then
      return false
  | "zadd" =>
    if command.length != 4 then
      return false
  | "zrem" =>
    if command.length != 3 then
      return false
  | "zscorerange" =>
    if command.length != 4 then
      return false
  | "zscore" =>
    if command.length != 3 then
      return false
  | "zcard" =>
    if command.length != 2 then
      return false
  | "zismember" =>
    if command.length != 3 then
      return false
  | _ => pure ()
  return true

/-- The handler registrations of the server's `main`, `ns.AddRouter(id, &T{})`,
in source order: the id and the handler type. -/
def routers : List (Nat × String) :=
  [(0, "SetRouter"), (1, "MSetRouter"), (2, "SetNxRouter"),
   (3, "MSetNxRouter"), (4, "GetRouter"), (5, "MGetRouter"),
   (6, "GetSetRouter"), (7, "RemoveRouter"), (8, "SLenRouter"),
   (9, "HSetRouter"), (10, "HSetNxRouter"), (11, "HGetRouter"),
   (12, "HGetAllRouter"), (13, "HDelRouter"), (14, "HLenRouter"),
   (15, "HExistRouter"), (16, "LPushRouter"), (17, "LRPushRouter"),
   (18, "LPopRouter"), (19, "LRPopRouter"), (20, "LInsertRouter"),
   (21, "LRInsertRouter"), (22, "LSetRouter"), (23, "LRemRouter"),
   (24, "LLenRouter"), (25, "LIndexRouter"), (26, "LRangeRouter"),
   (27, "LExistRouter"), (28, "SAddRouter"), (29, "SRemRouter"),
   (30, "SMoveRouter"), (31, "SUnionRouter"), (32, "SDiffRouter"),
   (33, "SScanRouter"), (34, "SCardRouter"), (35, "SIsMemberRouter"),
   (36, "ZAddRouter"), (37, "ZRemRouter"), (38, "ZScoreRangeRouter"),
   (39, "ZScoreRouter"), (40, "ZCardRouter"), (41, "ZIsMemberRouter"),
   (42, "ZTopRouter")]

/-- The ids the client can put in a request frame. -/
def clientIds : List Nat := commands.map Prod.snd

/-- The ids under which the server registers a handler. -/
def serverIds : List Nat := routers.map Prod.fst

/-! ## Go library functions on strings

A Go string that holds text is modelled by the list of its characters
(`String.data`). The non-ASCII part of Go's case tables is a parameter
`lowerTable` of everything that lowercases. -/

/-- Go `unicode.IsSpace`: in Latin-1 the characters `\t \n \v \f \r`, space,
U+0085 and U+00A0; beyond Latin-1 the `White_Space` property. -/
def isSpace (c : Char) : Bool :=
  let r := c.toNat
  if r ≤ 0xFF then
    r = 0x09 || r = 0x0A || r = 0x0B || r = 0x0C || r = 0x0D || r = 0x20 ||
      r = 0x85 || r = 0xA0
  else
    r = 0x1680 || (0x2000 ≤ r && r ≤ 0x200A) || r = 0x2028 || r = 0x2029 ||
      r = 0x202F || r = 0x205F || r = 0x3000

/-- Go `strings.TrimSpace`: the string without its leading and trailing white
space, as `unicode.IsSpace` defines it. -/
def TrimSpace (s : String) : String :=
  ⟨((s.data.dropWhile isSpace).reverse.dropWhile isSpace).reverse⟩

/-- Go `unicode.ToLower`: below U+0080 the letters `A`..`Z` move to `a`..`z`
and every other character stays; from U+0080 on the case table decides. -/
def lowerRune (lowerTable : Char → Char) (c : Char) : Char :=
  if c.toNat < 0x80 then c.toLower else lowerTable c

/-- Go `strings.ToLower`: every character mapped by `unicode.ToLower`. -/
def ToLower (lowerTable : Char → Char) (s : String) : String :=
  ⟨s.data.map (lowerRune lowerTable)⟩

/-- Go `strings.Split(s, sep)` for a separator of one character, on the
characters of `s`: the substrings between the occurrences of `sep`, so `k`
occurrences give `k + 1` substrings, and the empty string gives one empty
substring. -/
def splitChars (sep : Char) : List Char → List (List Char)
  | [] => [[]]
  | c :: cs =>
    if c = sep then [] :: splitChars sep cs
    else
      match splitChars sep cs with
      | [] => [[c]]
      | t :: ts => (c :: t) :: ts

/-- Go `strings.Split(s, " ")`. -/
def Split (s : String) : List String :=
  (splitChars ' ' s.data).map String.mk

/-- Go `utf8.EncodeRune`: the bytes of one character in a Go string. -/
def encodeRune (c : Char) : List Byte :=
  let r := c.toNat
  if r < 0x80 then [byte r]
  else if r < 0x800 then [byte (0xC0 + r / 64), byte (0x80 + r % 64)]
  else if r < 0x10000 then
    [byte (0xE0 + r / 4096), byte (0x80 + r / 64 % 64), byte (0x80 + r % 64)]
  else
    [byte (0xF0 + r / 262144), byte (0x80 + r / 4096 % 64), byte (0x80 + r / 64 % 64),
      byte (0x80 + r % 64)]

/-- The Go conversion `[]byte(s)`: the UTF-8 bytes of the text. -/
def stringBytes (s : String) : List Byte :=
  s.data.flatMap encodeRune

/-! ## Interactive shell (client/client.go) -/

/-- The loop of the client's `parseCommand`: `rest` is `arr[i:]`, `args` the
tokens appended so far. An empty element is skipped; element 0 is lowercased,
every other element is appended unchanged. -/
def parseCommandLoop (lowerTable : Char → Char) :
    Nat → List String → List String → List String
  | _, [], args => args
  | i, a :: rest, args =>
    if a = "" then parseCommandLoop lowerTable (i + 1) rest args
    else if i = 0 then parseCommandLoop lowerTable (i + 1) rest (args ++ [ToLower lowerTable a])
    else parseCommandLoop lowerTable (i + 1) rest (args ++ [a])

/-- The function `parseCommand` of client.go. A nil slice and an empty slice
are both the empty list. -/
def parseCommand (lowerTable : Char → Char) (cmdLine : String) : List String :=
  let arr := Split cmdLine
  if arr.length = 0 then []
  else parseCommandLoop lowerTable 0 arr []

/-! ## Request/response cycle (client/client.go) -/

/-- The client's view of its connection: the byte strings handed to
`conn.Write` so far, oldest first, and the bytes the server will still deliver
before the stream ends. Transport faults on writing are outside the model. -/
structure Conn where
  written : List (List Byte)
  incoming : List Byte
  deriving DecidableEq, Repr

/-- Go `conn.Write(b)`. -/
def connWrite (conn : Conn) (b : List Byte) : Conn :=
  { conn with written := conn.written ++ [b] }

/-- Go `io.ReadFull(conn, buf)` with `len(buf) = n`: exactly `n` bytes, or
`EOF` when the stream ends before the first byte and `ErrUnexpectedEOF` when it
ends after some but not all; a read of zero bytes succeeds at once. -/
def readFull (conn : Conn) (n : Nat) : Conn × Except IOError (List Byte) :=
  if n = 0 then (conn, .ok [])
  else if conn.incoming.length = 0 then (conn, .error .EOF)
  else if conn.incoming.length < n then
    ({ conn with incoming := [] }, .error .ErrUnexpectedEOF)
  else ({ conn with incoming := conn.incoming.drop n }, .ok (conn.incoming.take n))

/-- The loop of `handle` that fills the buffer `data`: `rest` is `c[i:]` and
`n` is `len(c)`. Each token is written, and a single space after it unless it
is the last one. -/
def handleLoop (n : Nat) : Nat → List String → List Byte → List Byte
  | _, [], data => data
  | i, ci :: rest, data =>
    let data := data ++ stringBytes ci
    let data := if i < n - 1 then data ++ stringBytes " " else data
    handleLoop n (i + 1) rest data

/-- The function `handle` of client.go: the connection afterwards and either
the error returned or the reply payload printed. `c[0]` on an empty slice is a
run-time panic, here `none`; a map read of an absent key gives 0. -/
def handle (conn : Conn) (c : List String) : Option (Conn × Except IOError (List Byte)) :=
  match c with
  | [] => none
  | c0 :: args =>
    let id := uint32 ((mapLookup commands c0).getD 0)
    let data := handleLoop c.length 1 args []
    match Pack id data with
    | .error err => some (conn, .error err)
    | .ok binMsg =>
      let conn := connWrite conn binMsg
      match readFull conn 8 with
      | (conn, .error err) => some (conn, .error err)
      | (conn, .ok headBuf) =>
        match UnPack headBuf with
        | .error err => some (conn, .error err)
        | .ok msg =>
          match readFull conn msg.length with
          | (conn, .error err) => some (conn, .error err)
          | (conn, .ok dataBuf) => some (conn, .ok dataBuf)

/-! ### Specification side of the request -/

/-- The byte strings joined with exactly one space (0x20) between neighbours
and none before the first or after the last. -/
def joinWithSpace (parts : List (List Byte)) : List Byte :=
  match parts with
  | [] => []
  | [p] => p
  | p :: q :: rest => p ++ [byte 0x20] ++ joinWithSpace (q :: rest)

/-! ### Specification side of the shell -/

/-- The maximal runs of characters that are not separators, in order: a
separator belongs to no run; a character that is not a separator starts a run,
which takes in the longest stretch without a separator behind it; the next run
is looked for behind that stretch. -/
def fieldsBy (sep : Char → Bool) : List Char → List (List Char)
  | [] => []
  | c :: cs =>
    if sep c then fieldsBy sep cs
    else
      (c :: cs.takeWhile (fun d => !sep d)) :: fieldsBy sep (cs.dropWhile (fun d => !sep d))
termination_by s => s.length
decreasing_by
  · simp only [List.length_cons]; omega
  · have h₂ := (List.dropWhile_suffix (l := cs) (fun d => !sep d)).length_le
    simp only [List.length_cons]; omega

/-- The tokens with the first one lowercased and every other one unchanged. -/
def lowerFirst (lowerTable : Char → Char) : List String → List String
  | [] => []
  | a :: rest => ToLower lowerTable a :: rest

/-- The maximal runs of non-white-space characters of a line, as strings. -/
def whitespaceFields (line : String) : List String :=
  (fieldsBy isSpace line.data).map String.mk

/-- The maximal runs of characters other than the space U+0020 of a line, as
strings. -/
def spaceFields (line : String) : List String :=
  (fieldsBy (fun c => c == ' ') line.data).map String.mk

/-! ## Server: argument splitting (server/server.go) -/

/-- Go `strings.Split(s, sep)` for a separator of one byte, on the bytes of
`s`: the substrings between the occurrences of `sep`, so `k` occurrences give
`k + 1` substrings, and the empty string gives one empty substring. -/
def splitBytes (sep : Byte) : List Byte → List (List Byte)
  | [] => [[]]
  | b :: bs =>
    if b = sep then [] :: splitBytes sep bs
    else
      match splitBytes sep bs with
      | [] => [[b]]
      | t :: ts => (b :: t) :: ts

namespace Server

/-- The loop of the server's `parseCommand`: `args = append(args, []byte(arr[i]))`
for every element of `arr` in order. -/
def parseCommandLoop : List (List Byte) → List (List Byte) → List (List Byte)
  | [], args => args
  | a :: rest, args => parseCommandLoop rest (args ++ [a])

/-- The function `parseCommand` of server.go, on the bytes of `cmdLine`:
`strings.Split(cmdLine, " ")` and a copy of every piece. -/
def parseCommand (cmdLine : List Byte) : List (List Byte) :=
  parseCommandLoop (splitBytes 0x20 cmdLine) []

end Server

/-! ## Server: handlers (server/server.go)

The storage engine and the Go library functions `strconv.Atoi`,
`strconv.ParseFloat` and `fmt.Sprintf` are not part of this repository; they
are parameters of the handlers. `F` stands for Go's `float64`. A handler
returns the replies it hands to `SendMessage`, in order; a run-time panic
(index out of range, failed type assertion) is `none`. An error that
`SendMessage` returns is only logged. A nil slice and an empty slice are both
the empty list, so `res == nil || len(res) == 0` is `res.length = 0`. -/

/-- A Go `error` returned by the engine: `none` is `nil`, `some msg` is an
error whose `Error()` text has the bytes `msg`. -/
abbrev GoError := Option (List Byte)

/-- One element of the `[]interface{}` the sorted-set operations return: a
`string`, a `float64`, or a value of another dynamic type. -/
inductive ZItem (F : Type) where
  | str (s : List Byte)
  | num (x : F)
  | other

/-- The arguments of one call `SendMessage(status, data)`. -/
structure Reply where
  status : Nat
  data : List Byte
  deriving DecidableEq, Repr

/-- The Go library functions the handlers call whose results the model does
not compute: `strconv.Atoi(string(b))` and `strconv.ParseFloat(string(b), 64)`
with the error dropped, and `fmt.Sprintf("%f", x)`. -/
structure GoLib (F : Type) where
  Atoi : List Byte → Int
  ParseFloat : List Byte → F
  Sprintf : F → List Byte

/-- Go `strconv.Itoa`: the decimal digits of an integer, with a minus sign in
front of a negative one. -/
def Itoa (i : Int) : List Byte :=
  stringBytes (toString i)

/-- Go `strconv.FormatBool`. -/
def FormatBool (b : Bool) : List Byte :=
  if b then stringBytes "true" else stringBytes "false"

namespace Server

variable {F : Type}

/-- The Go slice expression `c[i:]`: a run-time panic when `i` exceeds the
length. -/
def sliceFrom (c : List (List Byte)) (i : Nat) : Option (List (List Byte)) :=
  if i ≤ c.length then some (c.drop i) else none

/-- The loop `for i, r := range res` shared, word for word, by the handlers of
the multi-valued results: `rest` is `res[i:]`, `n` is `len(res)` and `b` the
builder. An empty element is written as `(nil)`. -/
def writeValues (n : Nat) : Nat → List (List Byte) → List Byte → List Byte
  | _, [], b => b
  | i, r :: rest, b =>
    if r.length = 0 then
      let b := b ++ Itoa i
      let b := b ++ stringBytes ") (nil)"
      let b := if i < n - 1 then b ++ stringBytes "\n" else b
      writeValues n (i + 1) rest b
    else
      let b := b ++ Itoa i
      let b := b ++ stringBytes ") "
      let b := b ++ r
      let b := if i < n - 1 then b ++ stringBytes "\n" else b
      writeValues n (i + 1) rest b

/-- The loop `for i := 0; i < len(res); i += 2` shared, word for word, by
`ZScoreRangeRouter` and `ZTopRouter`: `rest` is `res[i:]`, `n` is `len(res)`.
`res[i].(string)`, `res[i+1]` and `res[i+1].(float64)` panic on an element of
another type or a missing one. -/
def writePairs (lib : GoLib F) (n : Nat) : Nat → List (ZItem F) → List Byte → Option (List Byte)
  | _, [], b => some b
  | i, .str member :: .num score :: rest, b =>
    let b := b ++ Itoa i
    let b := b ++ stringBytes ") "
    let b := b ++ member
    let b := if i < n - 1 then b ++ stringBytes "\n" else b
    let b := b ++ Itoa (i + 1)
    let b := b ++ stringBytes ") "
    let b := b ++ lib.Sprintf score
    let b := if i < n - 2 then b ++ stringBytes "\n" else b
    writePairs lib n (i + 2) rest b
  | _, _, _ => none

/-- The storage engine as the handlers see it: one operation per method of
`*CaskDB.DB` that `server.go` calls, each giving the result of the call in the
engine's present state. The engine is not part of this repository. -/
structure DB (F : Type) where
  Set : List Byte → List Byte → GoError
  MSet : List (List Byte) → GoError
  SetNx : List Byte → List Byte → GoError
  MSetNx : List (List Byte) → GoError
  Get : List Byte → List Byte × GoError
  MGet : List (List Byte) → List (List Byte) × GoError
  GetSet : List Byte → List Byte → List Byte × GoError
  Remove : List Byte → GoError
  StrLen : Int
  HSet : List Byte → List Byte → List Byte → GoError
  HSetNx : List Byte → List Byte → List Byte → GoError
  HGet : List Byte → List Byte → List Byte × GoError
  HGetAll : List Byte → List (List Byte) × GoError
  HDel : List Byte → List Byte → GoError
  HLen : List Byte → Int
  HExist : List Byte → List Byte → Bool
  LPush : List Byte → List (List Byte) → GoError
  RPush : List Byte → List (List Byte) → GoError
  LPop : List Byte → List Byte × GoError
  RPop : List Byte → List Byte × GoError
  LInsert : List Byte → List Byte → Int → GoError
  RInsert : List Byte → List Byte → Int → GoError
  LSet : List Byte → List Byte → Int → GoError
  LRem : List Byte → List Byte → Int → GoError
  LLen : List Byte → Int
  LIndex : List Byte → Int → List Byte × GoError
  LRange : List Byte → Int → Int → List (List Byte) × GoError
  LExist : List Byte → List Byte → Bool
  SAdd : List Byte → List (List Byte) → GoError
  SRem : List Byte → List Byte → GoError
  SMove : List Byte → List Byte → List Byte → GoError
  SUnion : List (List Byte) → List (List Byte) × GoError
  SDiff : List (List Byte) → List (List Byte) × GoError
  SScan : List Byte → List (List Byte) × GoError
  SCard : List Byte → Int
  SIsMember : List Byte → List Byte → Bool
  ZAdd : List Byte → F → List Byte → GoError
  ZRem : List Byte → List Byte → GoError
  ZScoreRange : List Byte → F → F → List (ZItem F) × GoError
  ZScore : List Byte → List Byte → Bool × F
  ZCard : List Byte → Int
  ZIsMember : List Byte → List Byte → Bool
  ZTop : List Byte → Int → List (ZItem F) × GoError

/-- The handler `SetRouter.Handle` of server.go (id 0). -/
def SetRouter (db : DB F) (payload : List Byte) :
    Option (List Reply) := do
  let c := parseCommand payload
  let c0 ← c.get? 0
  let c1 ← c.get? 1
  match db.Set c0 c1 with
  | some err => pure [⟨400, err⟩]
  | none => pure [⟨200, stringBytes "\"OK\""⟩]

/-- The handler `MSetRouter.Handle` of server.go (id 1). -/
def MSetRouter (db : DB F) (payload : List Byte) :
    Option (List Reply) := do
  let c := parseCommand payload
  match db.MSet c with
  | some err => pure [⟨400, err⟩]
  | none => pure [⟨200, stringBytes "\"OK\""⟩]

/-- The handler `SetNxRouter.Handle` of server.go (id 2). -/
def SetNxRouter (db : DB F) (payload : List Byte) :
    Option (List Reply) := do
  let c := parseCommand payload
  let c0 ← c.get? 0
  let c1 ← c.get? 1
  match db.SetNx c0 c1 with
  | some err => pure [⟨400, err⟩]
  | none => pure [⟨200, stringBytes "\"OK\""⟩]

/-- The handler `MSetNxRouter.Handle` of server.go (id 3). -/
def MSetNxRouter (db : DB F) (payload : List Byte) :
    Option (List Reply) := do
  let c := parseCommand payload
  match db.MSetNx c with
  | some err => pure [⟨400, err⟩]
  | none => pure [⟨200, stringBytes "\"OK\""⟩]

/-- The handler `GetRouter.Handle` of server.go (id 4). -/
def GetRouter (db : DB F) (payload : List Byte) :
    Option (List Reply) := do
  let c := parseCommand payload
  let c0 ← c.get? 0
  match db.Get c0 with
  | (_, some err) => pure [⟨400, err⟩]
  | (res, none) =>
    if res.length = 0 then pure [⟨200, stringBytes "(nil)"⟩]
    else pure [⟨200, res⟩]

/-- The handler `MGetRouter.Handle` of server.go (id 5). -/
def MGetRouter (db : DB F) (payload : List Byte) :
    Option (List Reply) := do
  let c := parseCommand payload
  match db.MGet c with
  | (_, some err) => pure [⟨400, err⟩]
  | (res, none) => pure [⟨200, writeValues res.length 0 res []⟩]

/-- The handler `GetSetRouter.Handle` of server.go (id 6). -/
def GetSetRouter (db : DB F) (payload : List Byte) :
    Option (List Reply) := do
  let c := parseCommand payload
  let c0 ← c.get? 0
  let c1 ← c.get? 1
  match db.GetSet c0 c1 with
  | (_, some err) => pure [⟨400, err⟩]
  | (res, none) =>
    if res.length = 0 then pure [⟨200, stringBytes "(nil)"⟩]
    else pure [⟨200, res⟩]

/-- The handler `RemoveRouter.Handle` of server.go (id 7). -/
def RemoveRouter (db : DB F) (payload : List Byte) :
    Option (List Reply) := do
  let c := parseCommand payload
  let c0 ← c.get? 0
  match db.Remove c0 with
  | some err => pure [⟨400, err⟩]
  | none => pure [⟨200, stringBytes "\"OK\""⟩]

/-- The handler `SLenRouter.Handle` of server.go (id 8). -/
def SLenRouter (db : DB F) (_payload : List Byte) :
    Option (List Reply) :=
  some [⟨200, Itoa db.StrLen⟩]

/-- The handler `HSetRouter.Handle` of server.go (id 9). -/
def HSetRouter (db : DB F) (payload : List Byte) :
    Option (List Reply) := do
  let c := parseCommand payload
  let c0 ← c.get? 0
  let c1 ← c.get? 1
  let c2 ← c.get? 2
  match db.HSet c0 c1 c2 with
  | some err => pure [⟨200, err⟩]
  | none => pure [⟨200, stringBytes "\"OK\""⟩]

/-- The handler `HSetNxRouter.Handle` of server.go (id 10). -/
def HSetNxRouter (db : DB F) (payload : List Byte) :
    Option (List Reply) := do
  let c := parseCommand payload
  let c0 ← c.get? 0
  let c1 ← c.get? 1
  let c2 ← c.get? 2
  match db.HSetNx c0 c1 c2 with
  | some err => pure [⟨200, err⟩]
  | none => pure [⟨200, stringBytes "\"OK\""⟩]

/-- The handler `HGetRouter.Handle` of server.go (id 11). -/
def HGetRouter (db : DB F) (payload : List Byte) :
    Option (List Reply) := do
  let c := parseCommand payload
  let c0 ← c.get? 0
  let c1 ← c.get? 1
  match db.HGet c0 c1 with
  | (_, some err) => pure [⟨200, err⟩]
  | (res, none) =>
    let sent : List Reply := if res.length = 0 then [⟨200, stringBytes "(nil)"⟩] else []
    pure (sent ++ [⟨200, res⟩])

/-- The handler `HGetAllRouter.Handle` of server.go (id 12). -/
def HGetAllRouter (db : DB F) (payload : List Byte) :
    Option (List Reply) := do
  let c := parseCommand payload
  let c0 ← c.get? 0
  match db.HGetAll c0 with
  | (_, some err) => pure [⟨200, err⟩]
  | (res, none) =>
    if res.length = 0 then pure [⟨200, stringBytes "(empty list)"⟩]
    else pure [⟨200, writeValues res.length 0 res []⟩]

/-- The handler `HDelRouter.Handle` of server.go (id 13). -/
def HDelRouter (db : DB F) (payload : List Byte) :
    Option (List Reply) := do
  let c := parseCommand payload
  let c0 ← c.get? 0
  let c1 ← c.get? 1
  match db.HDel c0 c1 with
  | some err => pure [⟨200, err⟩]
  | none => pure [⟨200, stringBytes "\"OK\""⟩]

/-- The handler `HLenRouter.Handle` of server.go (id 14). -/
def HLenRouter (db : DB F) (payload : List Byte) :
    Option (List Reply) := do
  let c := parseCommand payload
  let c0 ← c.get? 0
  pure [⟨200, Itoa (db.HLen c0)⟩]

/-- The handler `HExistRouter.Handle` of server.go (id 15). -/
def HExistRouter (db : DB F) (payload : List Byte) :
    Option (List Reply) := do
  let c := parseCommand payload
  let c0 ← c.get? 0
  let c1 ← c.get? 1
  pure [⟨200, FormatBool (db.HExist c0 c1)⟩]

/-- The handler `LPushRouter.Handle` of server.go (id 16). -/
def LPushRouter (db : DB F) (payload : List Byte) :
    Option (List Reply) := do
  let c := parseCommand payload
  let c0 ← c.get? 0
  let cs ← sliceFrom c 1
  match db.LPush c0 cs with
  | some err => pure [⟨200, err⟩]
  | none => pure [⟨200, stringBytes "\"OK\""⟩]

/-- The handler `LRPushRouter.Handle` of server.go (id 17). -/
def LRPushRouter (db : DB F) (payload : List Byte) :
    Option (List Reply) := do
  let c := parseCommand payload
  let c0 ← c.get? 0
  let cs ← sliceFrom c 1
  match db.RPush c0 cs with
  | some err => pure [⟨200, err⟩]
  | none => pure [⟨200, stringBytes "\"OK\""⟩]

/-- The handler `LPopRouter.Handle` of server.go (id 18). -/
def LPopRouter (db : DB F) (payload : List Byte) :
    Option (List Reply) := do
  let c := parseCommand payload
  let c0 ← c.get? 0
  match db.LPop c0 with
  | (_, some err) => pure [⟨200, err⟩]
  | (res, none) =>
    if res.length = 0 then pure [⟨200, stringBytes "(nil)"⟩]
    else pure [⟨200, res⟩]

/-- The handler `LRPopRouter.Handle` of server.go (id 19). -/
def LRPopRouter (db : DB F) (payload : List Byte) :
    Option (List Reply) := do
  let c := parseCommand payload
  let c0 ← c.get? 0
  match db.RPop c0 with
  | (_, some err) => pure [⟨200, err⟩]
  | (res, none) =>
    if res.length = 0 then pure [⟨200, stringBytes "(nil)"⟩]
    else pure [⟨200, res⟩]

/-- The handler `LInsertRouter.Handle` of server.go (id 20). -/
def LInsertRouter (db : DB F) (lib : GoLib F) (payload : List Byte) :
    Option (List Reply) := do
  let c := parseCommand payload
  let c0 ← c.get? 0
  let c1 ← c.get? 1
  let c2 ← c.get? 2
  match db.LInsert c0 c1 (lib.Atoi c2) with
  | some err => pure [⟨200, err⟩]
  | none => pure [⟨200, stringBytes "\"OK\""⟩]

/-- The handler `LRInsertRouter.Handle` of server.go (id 21). -/
def LRInsertRouter (db : DB F) (lib : GoLib F) (payload : List Byte) :
    Option (List Reply) := do
  let c := parseCommand payload
  let c0 ← c.get? 0
  let c1 ← c.get? 1
  let c2 ← c.get? 2
  match db.RInsert c0 c1 (lib.Atoi c2) with
  | some err => pure [⟨200, err⟩]
  | none => pure [⟨200, stringBytes "\"OK\""⟩]

/-- The handler `LSetRouter.Handle` of server.go (id 22). -/
def LSetRouter (db : DB F) (lib : GoLib F) (payload : List Byte) :
    Option (List Reply) := do
  let c := parseCommand payload
  let c0 ← c.get? 0
  let c1 ← c.get? 1
  let c2 ← c.get? 2
  match db.LSet c0 c1 (lib.Atoi c2) with
  | some err => pure [⟨200, err⟩]
  | none => pure [⟨200, stringBytes "\"OK\""⟩]

/-- The handler `LRemRouter.Handle` of server.go (id 23). -/
def LRemRouter (db : DB F) (lib : GoLib F) (payload : List Byte) :
    Option (List Reply) := do
  let c := parseCommand payload
  let c0 ← c.get? 0
  let c1 ← c.get? 1
  let c2 ← c.get? 2
  match db.LRem c0 c1 (lib.Atoi c2) with
  | some err => pure [⟨200, err⟩]
  | none => pure [⟨200, stringBytes "\"OK\""⟩]

/-- The handler `LLenRouter.Handle` of server.go (id 24). -/
def LLenRouter (db : DB F) (payload : List Byte) :
    Option (List Reply) := do
  let c := parseCommand payload
  let c0 ← c.get? 0
  pure [⟨200, Itoa (db.LLen c0)⟩]

/-- The handler `LIndexRouter.Handle` of server.go (id 25). -/
def LIndexRouter (db : DB F) (lib : GoLib F) (payload : List Byte) :
    Option (List Reply) := do
  let c := parseCommand payload
  let c0 ← c.get? 0
  let c1 ← c.get? 1
  match db.LIndex c0 (lib.Atoi c1) with
  | (_, some err) => pure [⟨200, err⟩]
  | (res, none) =>
    if res.length = 0 then pure [⟨200, stringBytes "(nil)"⟩]
    else pure [⟨200, res⟩]

/-- The handler `LRangeRouter.Handle` of server.go (id 26). -/
def LRangeRouter (db : DB F) (lib : GoLib F) (payload : List Byte) :
    Option (List Reply) := do
  let c := parseCommand payload
  let c0 ← c.get? 0
  let c1 ← c.get? 1
  let c2 ← c.get? 2
  match db.LRange c0 (lib.Atoi c1) (lib.Atoi c2) with
  | (_, some err) => pure [⟨200, err⟩]
  | (res, none) =>
    if res.length = 0 then pure [⟨200, stringBytes "(empty list)"⟩]
    else pure [⟨200, writeValues res.length 0 res []⟩]

/-- The handler `LExistRouter.Handle` of server.go (id 27). -/
def LExistRouter (db : DB F) (payload : List Byte) :
    Option (List Reply) := do
  let c := parseCommand payload
  let c0 ← c.get? 0
  let c1 ← c.get? 1
  pure [⟨200, FormatBool (db.LExist c0 c1)⟩]

/-- The handler `SAddRouter.Handle` of server.go (id 28). -/
def SAddRouter (db : DB F) (payload : List Byte) :
    Option (List Reply) := do
  let c := parseCommand payload
  let c0 ← c.get? 0
  let cs ← sliceFrom c 1
  match db.SAdd c0 cs with
  | some err => pure [⟨200, err⟩]
  | none => pure [⟨200, stringBytes "\"OK\""⟩]

/-- The handler `SRemRouter.Handle` of server.go (id 29). -/
def SRemRouter (db : DB F) (payload : List Byte) :
    Option (List Reply) := do
  let c := parseCommand payload
  let c0 ← c.get? 0
  let c1 ← c.get? 1
  match db.SRem c0 c1 with
  | some err => pure [⟨200, err⟩]
  | none => pure [⟨200, stringBytes "\"OK\""⟩]

/-- The handler `SMoveRouter.Handle` of server.go (id 30). -/
def SMoveRouter (db : DB F) (payload : List Byte) :
    Option (List Reply) := do
  let c := parseCommand payload
  let c0 ← c.get? 0
  let c1 ← c.get? 1
  let c2 ← c.get? 2
  match db.SMove c0 c1 c2 with
  | some err => pure [⟨200, err⟩]
  | none => pure [⟨200, stringBytes "\"OK\""⟩]

/-- The handler `SUnionRouter.Handle` of server.go (id 31). -/
def SUnionRouter (db : DB F) (payload : List Byte) :
    Option (List Reply) := do
  let c := parseCommand payload
  match db.SUnion c with
  | (_, some err) => pure [⟨200, err⟩]
  | (res, none) =>
    if res.length = 0 then pure [⟨200, stringBytes "(empty list)"⟩]
    else pure [⟨200, writeValues res.length 0 res []⟩]

/-- The handler `SDiffRouter.Handle` of server.go (id 32). -/
def SDiffRouter (db : DB F) (payload : List Byte) :
    Option (List Reply) := do
  let c := parseCommand payload
  match db.SDiff c with
  | (_, some err) => pure [⟨200, err⟩]
  | (res, none) =>
    if res.length = 0 then pure [⟨200, stringBytes "(empty list)"⟩]
    else pure [⟨200, writeValues res.length 0 res []⟩]

/-- The handler `SScanRouter.Handle` of server.go (id 33). -/
def SScanRouter (db : DB F) (payload : List Byte) :
    Option (List Reply) := do
  let c := parseCommand payload
  let c0 ← c.get? 0
  match db.SScan c0 with
  | (_, some err) => pure [⟨200, err⟩]
  | (res, none) =>
    if res.length = 0 then pure [⟨200, stringBytes "(empty list)"⟩]
    else pure [⟨200, writeValues res.length 0 res []⟩]

/-- The handler `SCardRouter.Handle` of server.go (id 34). -/
def SCardRouter (db : DB F) (payload : List Byte) :
    Option (List Reply) := do
  let c := parseCommand payload
  let c0 ← c.get? 0
  pure [⟨200, Itoa (db.SCard c0)⟩]

/-- The handler `SIsMemberRouter.Handle` of server.go (id 35). -/
def SIsMemberRouter (db : DB F) (payload : List Byte) :
    Option (List Reply) := do
  let c := parseCommand payload
  let c0 ← c.get? 0
  let c1 ← c.get? 1
  pure [⟨200, FormatBool (db.SIsMember c0 c1)⟩]

/-- The handler `ZAddRouter.Handle` of server.go (id 36). -/
def ZAddRouter (db : DB F) (lib : GoLib F) (payload : List Byte) :
    Option (List Reply) := do
  let c := parseCommand payload
  let c0 ← c.get? 0
  let c1 ← c.get? 1
  let c2 ← c.get? 2
  match db.ZAdd c0 (lib.ParseFloat c1) c2 with
  | some err => pure [⟨200, err⟩]
  | none => pure [⟨200, stringBytes "\"OK\""⟩]

/-- The handler `ZRemRouter.Handle` of server.go (id 37). -/
def ZRemRouter (db : DB F) (payload : List Byte) :
    Option (List Reply) := do
  let c := parseCommand payload
  let c0 ← c.get? 0
  let c1 ← c.get? 1
  match db.ZRem c0 c1 with
  | some err => pure [⟨200, err⟩]
  | none => pure [⟨200, stringBytes "\"OK\""⟩]

/-- The handler `ZScoreRangeRouter.Handle` of server.go (id 38). -/
def ZScoreRangeRouter (db : DB F) (lib : GoLib F) (payload : List Byte) :
    Option (List Reply) := do
  let c := parseCommand payload
  let c0 ← c.get? 0
  let c1 ← c.get? 1
  let c2 ← c.get? 2
  match db.ZScoreRange c0 (lib.ParseFloat c1) (lib.ParseFloat c2) with
  | (_, some err) => pure [⟨200, err⟩]
  | (res, none) =>
    if res.length = 0 then pure [⟨200, stringBytes "(empty list)"⟩]
    else do
      let b ← writePairs lib res.length 0 res []
      pure [⟨200, b⟩]

/-- The handler `ZScoreRouter.Handle` of server.go (id 39). -/
def ZScoreRouter (db : DB F) (lib : GoLib F) (payload : List Byte) :
    Option (List Reply) := do
  let c := parseCommand payload
  let c0 ← c.get? 0
  let c1 ← c.get? 1
  let (b, res) := db.ZScore c0 c1
  let score := lib.Sprintf res
  if b then pure [⟨200, score⟩] else pure [⟨200, stringBytes "(nil)"⟩]

/-- The handler `ZCardRouter.Handle` of server.go (id 40). -/
def ZCardRouter (db : DB F) (payload : List Byte) :
    Option (List Reply) := do
  let c := parseCommand payload
  let c0 ← c.get? 0
  pure [⟨200, Itoa (db.ZCard c0)⟩]

/-- The handler `ZIsMemberRouter.Handle` of server.go (id 41). -/
def ZIsMemberRouter (db : DB F) (payload : List Byte) :
    Option (List Reply) := do
  let c := parseCommand payload
  let c0 ← c.get? 0
  let c1 ← c.get? 1
  pure [⟨200, FormatBool (db.ZIsMember c0 c1)⟩]

/-- The handler `ZTopRouter.Handle` of server.go (id 42). -/
def ZTopRouter (db : DB F) (lib : GoLib F) (payload : List Byte) :
    Option (List Reply) := do
  let c := parseCommand payload
  let c0 ← c.get? 0
  let c1 ← c.get? 1
  match db.ZTop c0 (lib.Atoi c1) with
  | (_, some err) => pure [⟨200, err⟩]
  | (res, none) =>
    if res.length = 0 then pure [⟨200, stringBytes "(empty list)"⟩]
    else do
      let b ← writePairs lib res.length 0 res []
      pure [⟨200, b⟩]

/-- The handler type named in an `AddRouter` call, as the function its `Handle`
method computes; `none` for a name that is no handler type. -/
def handlerNamed (db : DB F) (lib : GoLib F) (name : String) :
    Option (List Byte → Option (List Reply)) :=
  match name with
  | "SetRouter" => some (SetRouter db)
  | "MSetRouter" => some (MSetRouter db)
  | "SetNxRouter" => some (SetNxRouter db)
  | "MSetNxRouter" => some (MSetNxRouter db)
  | "GetRouter" => some (GetRouter db)
  | "MGetRouter" => some (MGetRouter db)
  | "GetSetRouter" => some (GetSetRouter db)
  | "RemoveRouter" => some (RemoveRouter db)
  | "SLenRouter" => some (SLenRouter db)
  | "HSetRouter" => some (HSetRouter db)
  | "HSetNxRouter" => some (HSetNxRouter db)
  | "HGetRouter" => some (HGetRouter db)
  | "HGetAllRouter" => some (HGetAllRouter db)
  | "HDelRouter" => some (HDelRouter db)
  | "HLenRouter" => some (HLenRouter db)
  | "HExistRouter" => some (HExistRouter db)
  | "LPushRouter" => some (LPushRouter db)
  | "LRPushRouter" => some (LRPushRouter db)
  | "LPopRouter" => some (LPopRouter db)
  | "LRPopRouter" => some (LRPopRouter db)
  | "LInsertRouter" => some (LInsertRouter db lib)
  | "LRInsertRouter" => some (LRInsertRouter db lib)
  | "LSetRouter" => some (LSetRouter db lib)
  | "LRemRouter" => some (LRemRouter db lib)
  | "LLenRouter" => some (LLenRouter db)
  | "LIndexRouter" => some (LIndexRouter db lib)
  | "LRangeRouter" => some (LRangeRouter db lib)
  | "LExistRouter" => some (LExistRouter db)
  | "SAddRouter" => some (SAddRouter db)
  | "SRemRouter" => some (SRemRouter db)
  | "SMoveRouter" => some (SMoveRouter db)
  | "SUnionRouter" => some (SUnionRouter db)
  | "SDiffRouter" => some (SDiffRouter db)
  | "SScanRouter" => some (SScanRouter db)
  | "SCardRouter" => some (SCardRouter db)
  | "SIsMemberRouter" => some (SIsMemberRouter db)
  | "ZAddRouter" => some (ZAddRouter db lib)
  | "ZRemRouter" => some (ZRemRouter db)
  | "ZScoreRangeRouter" => some (ZScoreRangeRouter db lib)
  | "ZScoreRouter" => some (ZScoreRouter db lib)
  | "ZCardRouter" => some (ZCardRouter db)
  | "ZIsMemberRouter" => some (ZIsMemberRouter db)
  | "ZTopRouter" => some (ZTopRouter db lib)
  | _ => none

/-- The handler the server's `main` registers under an id: the handler type of
the `AddRouter` call with that id. -/
def registered (db : DB F) (lib : GoLib F) (id : Nat) :
    Option (List Byte → Option (List Reply)) :=
  match routers.lookup id with
  | some name => handlerNamed db lib name
  | none => none

end Server

/-! ### An engine and library stand-ins for evaluating the handlers -/

/-- An engine with an empty store: every write succeeds, every read finds
nothing. Scores are whole numbers. -/
def emptyDB : Server.DB Nat :=
  {
    Set := fun _ _ => none
    MSet := fun _ => none
    SetNx := fun _ _ => none
    MSetNx := fun _ => none
    Get := fun _ => ([], none)
    MGet := fun _ => ([], none)
    GetSet := fun _ _ => ([], none)
    Remove := fun _ => none
    StrLen := 0
    HSet := fun _ _ _ => none
    HSetNx := fun _ _ _ => none
    HGet := fun _ _ => ([], none)
    HGetAll := fun _ => ([], none)
    HDel := fun _ _ => none
    HLen := fun _ => 0
    HExist := fun _ _ => false
    LPush := fun _ _ => none
    RPush := fun _ _ => none
    LPop := fun _ => ([], none)
    RPop := fun _ => ([], none)
    LInsert := fun _ _ _ => none
    RInsert := fun _ _ _ => none
    LSet := fun _ _ _ => none
    LRem := fun _ _ _ => none
    LLen := fun _ => 0
    LIndex := fun _ _ => ([], none)
    LRange := fun _ _ _ => ([], none)
    LExist := fun _ _ => false
    SAdd := fun _ _ => none
    SRem := fun _ _ => none
    SMove := fun _ _ _ => none
    SUnion := fun _ => ([], none)
    SDiff := fun _ => ([], none)
    SScan := fun _ => ([], none)
    SCard := fun _ => 0
    SIsMember := fun _ _ => false
    ZAdd := fun _ _ _ => none
    ZRem := fun _ _ => none
    ZScoreRange := fun _ _ _ => ([], none)
    ZScore := fun _ _ => (false, 0)
    ZCard := fun _ => 0
    ZIsMember := fun _ _ => false
    ZTop := fun _ _ => ([], none)
  }

/-- Stand-ins for the Go library on whole-number scores: `%f` prints a whole
number with six zero decimals; the two parsers are not evaluated and give 0. -/
def wholeNumberLib : GoLib Nat :=
  { Atoi := fun _ => 0
    ParseFloat := fun _ => 0
    Sprintf := fun x => Itoa x ++ stringBytes ".000000" }

/-! ### Specification side of the replies -/

/-- The byte strings joined with exactly one newline (0x0A) between
neighbours and none before the first or after the last. -/
def joinLines (parts : List (List Byte)) : List Byte :=
  match parts with
  | [] => []
  | [p] => p
  | p :: q :: rest => p ++ [byte 0x0A] ++ joinLines (q :: rest)

/-- The decimal digits of a natural number, as bytes. -/
def decimal (n : Nat) : List Byte :=
  stringBytes (Nat.repr n)

/-- The line for the value at index `i` of a multi-valued result: the
decimal of `i`, then `") "`, then the value, or `(nil)` for an empty value. -/
def valueLine (i : Nat) (r : List Byte) : List Byte :=
  decimal i ++ stringBytes ") " ++ (if r = [] then stringBytes "(nil)" else r)

/-- The lines of a multi-valued result, indexed from 0. -/
def valueLines (res : List (List Byte)) : List (List Byte) :=
  res.enum.map (fun p => valueLine p.1 p.2)

/-- The engine result `m_0, s_0, m_1, s_1, ...` for the pairs
`(m_0, s_0), (m_1, s_1), ...` of member and score. -/
def memberScoreItems {F : Type} (pairs : List (List Byte × F)) : List (ZItem F) :=
  pairs.flatMap (fun p => [ZItem.str p.1, ZItem.num p.2])

/-- The two lines of pair `j`: index `2j` with the member, index `2j + 1`
with the rendering of the score. -/
def pairLines {F : Type} (render : F → List Byte) (j : Nat) (p : List Byte × F) :
    List (List Byte) :=
  [decimal (2 * j) ++ stringBytes ") " ++ p.1,
   decimal (2 * j + 1) ++ stringBytes ") " ++ render p.2]

/-- The lines of a sorted-set result, pairs indexed from 0. -/
def memberScoreLines {F : Type} (render : F → List Byte) (pairs : List (List Byte × F)) :
    List (List Byte) :=
  pairs.enum.flatMap (fun q => pairLines render q.1 q.2)
/-- An engine whose string store holds the one key `b` with the value `v`;
everything else as in `emptyDB`. -/
def storeWithB : Server.DB Nat :=
  { emptyDB with
    Get := fun key => (if key = stringBytes "b" then stringBytes "v" else [], none)
    MGet := fun keys =>
      (keys.map (fun key => if key = stringBytes "b" then stringBytes "v" else []), none) }
/-- An engine whose sorted set `z` holds the member `a` with score 1 and the
member `b` with score 2, as `ZTop` and `ZScoreRange` return them; everything
else as in `emptyDB`. -/
def scoreBoard : Server.DB Nat :=
  { emptyDB with
    ZTop := fun _ _ => (memberScoreItems [(stringBytes "a", 1), (stringBytes "b", 2)], none)
    ZScoreRange := fun _ _ _ =>
      (memberScoreItems [(stringBytes "a", 1), (stringBytes "b", 2)], none) }

/-! ## Keep-alive (client/client.go, server/server.go) -/

namespace Server

/-- The constant `DefaultHeartPackageId` of server.go. -/
def DefaultHeartPackageId : Nat := 100

end Server

/-- One round of the endless loop of `heartBeat`, the sleep of 30 seconds left
out: `Pack(100, []byte(""))`, and `conn.Write` of the frame unless `Pack`
reports an error, in which case the round writes nothing. -/
def heartBeatRound (conn : Conn) : Conn :=
  match Pack 100 (stringBytes "") with
  | .error _ => conn
  | .ok binMsg => connWrite conn binMsg

/-- The first `n` rounds of the function `heartBeat` of client.go. -/
def heartBeat : Nat → Conn → Conn
  | 0, conn => conn
  | n + 1, conn => heartBeat n (heartBeatRound conn)

/-! ## Server configuration (server/server.go) -/

namespace Server

/-- The struct `ServerConfig` of server.go. A `time.Duration` is its count of
nanoseconds. -/
structure ServerConfig where
  IPVersion : String
  Host : String
  Port : Int
  MaxConnSize : Int
  MaxPackageSize : Nat
  WorkerPoolSize : Nat
  MaxWorkerTaskSize : Nat
  HeartRateInSecond : Int
  HeartFreshLevel : Nat
  HeartPackageId : Nat
  DBDir : String
  MaxKeySize : Nat
  MaxValueSize : Nat
  MaxFileSize : Int
  MergeInterval : Int
  WriteSync : Bool
  deriving DecidableEq, Repr

/-- The function `DefaultServerConfig` of server.go; `MergeInterval` is left
at its zero value. -/
def DefaultServerConfig : ServerConfig :=
  { IPVersion := "tcp4"
    Host := "127.0.0.1"
    Port := 4519
    MaxConnSize := 1
    MaxPackageSize := 1024 * 1024
    WorkerPoolSize := 1
    MaxWorkerTaskSize := 100
    HeartRateInSecond := 30 * 1000000000
    HeartFreshLevel := 5
    HeartPackageId := DefaultHeartPackageId
    DBDir := "/tmp/CaskDB"
    MaxKeySize := 1 * 1024
    MaxValueSize := 8 * 1024
    MaxFileSize := 1 * 1024 * 1024
    MergeInterval := 0
    WriteSync := false }

/-- The fields of the network framework's configuration (`knet.Config`) that
`NewServer` names. -/
structure NetConfig where
  IPVersion : String
  Host : String
  TcpPort : Int
  WorkerPoolSize : Nat
  MaxConnSize : Int
  MaxPackageSize : Nat
  MaxWorkerTaskSize : Nat
  HeartRateInSecond : Int
  HeartFreshLevel : Nat
  deriving DecidableEq, Repr

/-- The fields of the storage engine's configuration (`CaskDB.Config`) that
`NewServer` names. -/
structure DBConfig where
  DBDir : String
  MaxKeySize : Nat
  MaxValueSize : Nat
  MaxFileSize : Int
  MergeInterval : Int
  WriteSync : Bool
  deriving DecidableEq, Repr

/-- The function `NewServer` of server.go up to its two calls into the
collaborators: the configuration handed to `knet.NewServer` and the one handed
to `CaskDB.Open`. `netDefault` and `dbDefault` are what `knet.DefaultConfig()`
and `CaskDB.DefaultConfig()` return. -/
def NewServer (netDefault : NetConfig) (dbDefault : DBConfig) (cfg : ServerConfig) :
    NetConfig × DBConfig :=
  let netCfg := netDefault
  let netCfg := { netCfg with IPVersion := cfg.IPVersion }
  let netCfg := { netCfg with Host := cfg.Host }
  let netCfg := { netCfg with TcpPort := cfg.Port }
  let netCfg := { netCfg with WorkerPoolSize := cfg.WorkerPoolSize }
  let netCfg := { netCfg with MaxConnSize := cfg.MaxConnSize }
  let netCfg := { netCfg with MaxPackageSize := cfg.MaxPackageSize }
  let netCfg := { netCfg with MaxWorkerTaskSize := cfg.MaxWorkerTaskSize }
  let netCfg := { netCfg with HeartFreshLevel := cfg.HeartFreshLevel }
  let dbCfg := dbDefault
  let dbCfg := { dbCfg with DBDir := cfg.DBDir }
  let dbCfg := { dbCfg with MaxKeySize := cfg.MaxKeySize }
  let dbCfg := { dbCfg with MaxValueSize := cfg.MaxKeySize }
  let dbCfg := { dbCfg with MaxFileSize := cfg.MaxFileSize }
  let dbCfg := { dbCfg with WriteSync := cfg.WriteSync }
  (netCfg, dbCfg)

end Server

/-! ## Lemmas on the codec -/

theorem getUint32_eq (b0 b1 b2 b3 : Byte) :
    getUint32 b0 b1 b2 b3 = leValue [b0, b1, b2, b3] := by
  have h0 : b0.val < 2 ^ 8 := b0.isLt
  have h1 : 2 ^ 8 * b1.val + b0.val < 2 ^ 16 := by have := b1.isLt; omega
  have h2 : 2 ^ 16 * b2.val + (2 ^ 8 * b1.val + b0.val) < 2 ^ 24 := by
    have := b2.isLt; omega
  unfold getUint32
  rw [Nat.or_comm b0.val, Nat.shiftLeft_eq, Nat.mul_comm b1.val,
    ← Nat.mul_add_lt_is_or h0,
    Nat.or_comm _ (b2.val <<< 16), Nat.shiftLeft_eq, Nat.mul_comm b2.val,
    ← Nat.mul_add_lt_is_or h1,
    Nat.or_comm _ (b3.val <<< 24), Nat.shiftLeft_eq, Nat.mul_comm b3.val,
    ← Nat.mul_add_lt_is_or h2]
  simp only [leValue]
  omega

theorem leValue_putUint32 (v : Nat) : leValue (putUint32 v) = v % 2 ^ 32 := by
  simp only [putUint32, leValue, byte, Nat.shiftRight_eq_div_pow]
  omega

theorem length_putUint32 (v : Nat) : (putUint32 v).length = 4 := rfl

theorem Pack_eq (id : Nat) (data : List Byte) :
    Pack id data = .ok (putUint32 id ++ putUint32 (uint32 data.length) ++ data) := rfl

theorem UnPack_cons8 (b0 b1 b2 b3 b4 b5 b6 b7 : Byte) (rest : List Byte) :
    UnPack (b0 :: b1 :: b2 :: b3 :: b4 :: b5 :: b6 :: b7 :: rest) =
      .ok { id := getUint32 b0 b1 b2 b3, length := getUint32 b4 b5 b6 b7, data := [] } := rfl

theorem UnPack_putUint32 (a b : Nat) (rest : List Byte) :
    UnPack (putUint32 a ++ putUint32 b ++ rest) =
      .ok { id := a % 2 ^ 32, length := b % 2 ^ 32, data := [] } := by
  have ha := leValue_putUint32 a
  have hb := leValue_putUint32 b
  simp only [putUint32] at ha hb ⊢
  simp only [List.cons_append, List.nil_append, UnPack_cons8, getUint32_eq, ha, hb]

theorem UnPack_header (a b : Nat) :
    UnPack (putUint32 a ++ putUint32 b) =
      .ok { id := a % 2 ^ 32, length := b % 2 ^ 32, data := [] } := by
  simpa using UnPack_putUint32 a b []

theorem UnPack_short (data : List Byte) (h : data.length < 8) :
    ∃ e, UnPack data = .error e := by
  rcases data with _ | ⟨b0, _ | ⟨b1, _ | ⟨b2, _ | ⟨b3, _ | ⟨b4, _ | ⟨b5, _ | ⟨b6, _ | ⟨b7, r⟩⟩⟩⟩⟩⟩⟩⟩
  · exact ⟨.EOF, rfl⟩
  · exact ⟨.ErrUnexpectedEOF, rfl⟩
  · exact ⟨.ErrUnexpectedEOF, rfl⟩
  · exact ⟨.ErrUnexpectedEOF, rfl⟩
  · exact ⟨.EOF, rfl⟩
  · exact ⟨.ErrUnexpectedEOF, rfl⟩
  · exact ⟨.ErrUnexpectedEOF, rfl⟩
  · exact ⟨.ErrUnexpectedEOF, rfl⟩
  · simp only [List.length_cons] at h; omega

theorem UnPack_long (data : List Byte) (h : 8 ≤ data.length) :
    UnPack data = .ok { id := leValue (data.take 4),
                        length := leValue ((data.drop 4).take 4), data := [] } ∧
      UnPack data = UnPack (data.take 8) := by
  rcases data with _ | ⟨b0, _ | ⟨b1, _ | ⟨b2, _ | ⟨b3, _ | ⟨b4, _ | ⟨b5, _ | ⟨b6, _ | ⟨b7, r⟩⟩⟩⟩⟩⟩⟩⟩
  all_goals first
    | (simp only [List.length_cons, List.length_nil] at h; omega)
    | (refine ⟨?_, rfl⟩
       rw [UnPack_cons8, getUint32_eq, getUint32_eq]
       rfl)

theorem length_oversizedPayload : oversizedPayload.length = 2 ^ 32 :=
  List.length_replicate _ _

theorem Pack_oversized :
    Pack 0 oversizedPayload = .ok (putUint32 0 ++ putUint32 0 ++ oversizedPayload) := by
  rw [Pack_eq, length_oversizedPayload, uint32, Nat.mod_self]

/-! ## C1: codec round trip -/

/-- C1, refuted as stated: for the selector 0 and the payload of `2 ^ 32` zero
bytes, `UnPack` of the first 8 bytes of the packed frame returns the length 0,
the payload's length reduced modulo `2 ^ 32`; so it is not the case that it
returns `(0, len(payload))` with the payload following the header. -/
theorem roundtrip_fails_on_oversized_payload :
    (∃ frame, Pack 0 oversizedPayload = .ok frame ∧
        UnPack (frame.take 8) = .ok { id := 0, length := 0, data := [] }) ∧
    oversizedPayload.length = 4294967296 ∧
    ¬ ∃ frame, Pack 0 oversizedPayload = .ok frame ∧
        UnPack (frame.take 8) =
          .ok { id := 0, length := oversizedPayload.length, data := [] } ∧
        frame.drop 8 = oversizedPayload := by
  have hu : UnPack ((putUint32 0 ++ putUint32 0 ++ oversizedPayload).take 8) =
      .ok { id := 0, length := 0, data := [] } := by
    rw [List.take_left' (by rfl), UnPack_header, Nat.zero_mod]
  refine ⟨⟨_, Pack_oversized, hu⟩, length_oversizedPayload, ?_⟩
  rintro ⟨frame, hp, hc, -⟩
  rw [Pack_oversized] at hp
  cases hp
  rw [hu, length_oversizedPayload] at hc
  simp at hc

/-- C1, amended: for every selector id below `2 ^ 32` and every payload of
fewer than `2 ^ 32` bytes, `Pack` succeeds, `UnPack` of the first 8 bytes of
the frame succeeds and returns `(id, len(payload))`, and the bytes of the frame
after the first 8 are exactly the payload. -/
theorem pack_unpack_roundtrip (id : Nat) (payload : List Byte)
    (hid : id < 2 ^ 32) (hlen : payload.length < 2 ^ 32) :
    ∃ frame, Pack id payload = .ok frame ∧
      UnPack (frame.take 8) = .ok { id := id, length := payload.length, data := [] } ∧
      frame.drop 8 = payload := by
  refine ⟨_, Pack_eq id payload, ?_, ?_⟩
  · rw [List.take_left' (by rfl), UnPack_header, uint32, Nat.mod_mod,
      Nat.mod_eq_of_lt hid, Nat.mod_eq_of_lt hlen]
  · rw [List.drop_left' (by rfl)]

/-- C1, amended, at the selector 7 and the payload `01 02 03`. -/
theorem pack_unpack_roundtrip_witness :
    ∃ frame, Pack 7 [1, 2, 3] = .ok frame ∧
      UnPack (frame.take 8) = .ok { id := 7, length := 3, data := [] } ∧
      frame.drop 8 = [1, 2, 3] :=
  pack_unpack_roundtrip 7 [1, 2, 3] (by decide) (by decide)

/-! ## C2: frame layout -/

/-- C2, refuted as stated: in the frame `Pack` builds for the selector 0 and
the payload of `2 ^ 32` zero bytes, bytes 4..7 are `00 00 00 00`; the frame is
not a four-byte little-endian encoding of the selector, then a four-byte
little-endian encoding of `len(payload)`, then the payload. -/
theorem layout_fails_on_oversized_payload :
    (∃ frame, Pack 0 oversizedPayload = .ok frame ∧
        (frame.drop 4).take 4 = [0, 0, 0, 0]) ∧
    oversizedPayload.length = 4294967296 ∧
    ¬ ∃ frame, Pack 0 oversizedPayload = .ok frame ∧
        frame.length = 8 + oversizedPayload.length ∧
        ∃ sel len, frame = sel ++ len ++ oversizedPayload ∧
          IsLE32 sel 0 ∧ IsLE32 len oversizedPayload.length := by
  refine ⟨⟨_, Pack_oversized, rfl⟩, length_oversizedPayload, ?_⟩
  rintro ⟨frame, hp, -, sel, len, hf, ⟨hs, -⟩, ⟨hl, hv⟩⟩
  rw [Pack_oversized] at hp
  cases hp
  have h1 := (List.append_inj_left' hf rfl)
  have h2 := List.append_inj_right h1 (by rw [hs]; rfl)
  rw [← h2, leValue_putUint32, length_oversizedPayload] at hv
  simp at hv

/-- C2, amended: for every selector id below `2 ^ 32` and every payload of
fewer than `2 ^ 32` bytes, `Pack` returns without error a byte string of exactly
`8 + len(payload)` bytes: the four-byte little-endian encoding of the id, then
the four-byte little-endian encoding of `len(payload)`, then the payload
unchanged, with nothing between or after. -/
theorem pack_frame_layout (id : Nat) (payload : List Byte)
    (hid : id < 2 ^ 32) (hlen : payload.length < 2 ^ 32) :
    ∃ frame, Pack id payload = .ok frame ∧
      frame.length = 8 + payload.length ∧
      ∃ sel len, frame = sel ++ len ++ payload ∧
        IsLE32 sel id ∧ IsLE32 len payload.length := by
  refine ⟨_, Pack_eq id payload, ?_, putUint32 id, putUint32 (uint32 payload.length), rfl,
    ⟨rfl, ?_⟩, ⟨rfl, ?_⟩⟩
  · rw [List.length_append, List.length_append, length_putUint32, length_putUint32]
  · rw [leValue_putUint32, Nat.mod_eq_of_lt hid]
  · rw [leValue_putUint32, uint32, Nat.mod_mod, Nat.mod_eq_of_lt hlen]

/-- C2, amended, at the selector 258 and the payload `09 08`: the frame is
`02 01 00 00 02 00 00 00 09 08`. -/
theorem pack_frame_layout_witness :
    ∃ frame, Pack 258 [9, 8] = .ok frame ∧
      frame.length = 8 + [(9 : Byte), 8].length ∧
      ∃ sel len, frame = sel ++ len ++ [9, 8] ∧
        IsLE32 sel 258 ∧ IsLE32 len [(9 : Byte), 8].length :=
  pack_frame_layout 258 [9, 8] (by decide) (by decide)

/-! ## C3: header decoding -/

/-- C3: `UnPack` returns an error exactly when its input has fewer than 8
bytes; on an input of at least 8 bytes it returns the selector read
little-endian from bytes 0..3 and the length read little-endian from bytes
4..7, and the result is the same as on the first 8 bytes alone. -/
theorem unpack_error_iff_short (data : List Byte) :
    ((∃ e, UnPack data = .error e) ↔ data.length < 8) ∧
    (8 ≤ data.length →
      UnPack data = .ok { id := leValue (data.take 4),
                          length := leValue ((data.drop 4).take 4), data := [] } ∧
      UnPack data = UnPack (data.take 8)) := by
  refine ⟨⟨?_, UnPack_short data⟩, UnPack_long data⟩
  rintro ⟨e, he⟩
  by_contra hge
  rw [(UnPack_long data (by omega)).1] at he
  cases he

/-! ## C4: the arity table -/

theorem ite_some_bool (p : Prop) [Decidable p] :
    (if p then some true else some false) = some (decide p) := by
  by_cases h : p <;> simp [h]

theorem ite_some_bool_not (p : Prop) [Decidable p] :
    (if p then some false else some true) = some (decide ¬ p) := by
  by_cases h : p <;> simp [h]

/-- C4: for the commands named in the arity table, `checkCommand` accepts a
token list that starts with the command name exactly when the token count, the
name included, is 3 for set, 2 for get, 4 for hset, lrange and zadd, at least 3
for mset, lpush and sadd, at least 2 for sunion, and 1 for slen; and
`["set", "a"]` is rejected. -/
theorem arity_table (rest : List String) :
    checkCommand ("set" :: rest) = some (decide (("set" :: rest).length = 3)) ∧
    checkCommand ("get" :: rest) = some (decide (("get" :: rest).length = 2)) ∧
    checkCommand ("hset" :: rest) = some (decide (("hset" :: rest).length = 4)) ∧
    checkCommand ("lrange" :: rest) = some (decide (("lrange" :: rest).length = 4)) ∧
    checkCommand ("zadd" :: rest) = some (decide (("zadd" :: rest).length = 4)) ∧
    checkCommand ("mset" :: rest) = some (decide (("mset" :: rest).length ≥ 3)) ∧
    checkCommand ("lpush" :: rest) = some (decide (("lpush" :: rest).length ≥ 3)) ∧
    checkCommand ("sadd" :: rest) = some (decide (("sadd" :: rest).length ≥ 3)) ∧
    checkCommand ("sunion" :: rest) = some (decide (("sunion" :: rest).length ≥ 2)) ∧
    checkCommand ("slen" :: rest) = some (decide (("slen" :: rest).length = 1)) ∧
    checkCommand ["set", "a"] = some false := by
  have h_set : checkCommand ("set" :: rest) =
      (if ("set" :: rest).length != 3 then some false else some true) := rfl
  have h_get : checkCommand ("get" :: rest) =
      (if ("get" :: rest).length != 2 then some false else some true) := rfl
  have h_hset : checkCommand ("hset" :: rest) =
      (if ("hset" :: rest).length != 4 then some false else some true) := rfl
  have h_lrange : checkCommand ("lrange" :: rest) =
      (if ("lrange" :: rest).length != 4 then some false else some true) := rfl
  have h_zadd : checkCommand ("zadd" :: rest) =
      (if ("zadd" :: rest).length != 4 then some false else some true) := rfl
  have h_mset : checkCommand ("mset" :: rest) =
      (if ("mset" :: rest).length < 3 then some false else some true) := rfl
  have h_lpush : checkCommand ("lpush" :: rest) =
      (if ("lpush" :: rest).length < 3 then some false else some true) := rfl
  have h_sadd : checkCommand ("sadd" :: rest) =
      (if ("sadd" :: rest).length < 3 then some false else some true) := rfl
  have h_sunion : checkCommand ("sunion" :: rest) =
      (if ("sunion" :: rest).length < 2 then some false else some true) := rfl
  have h_slen : checkCommand ("slen" :: rest) =
      (if ("slen" :: rest).length != 1 then some false else some true) := rfl
  rw [h_set, h_get, h_hset, h_lrange, h_zadd, h_mset, h_lpush, h_sadd, h_sunion, h_slen]
  simp only [List.length_cons, bne_iff_ne, ne_eq, ite_some_bool_not, ge_iff_le, not_lt,
    Decidable.not_not, true_and]
  decide

/-! ## Lemmas on the registry -/

theorem mapLookup_mem {m : List (String × Nat)} {k : String} {v : Nat}
    (h : mapLookup m k = some v) : (k, v) ∈ m := by
  induction m with
  | nil => simp [mapLookup] at h
  | cons e rest ih =>
    obtain ⟨k', v'⟩ := e
    by_cases hk : k' = k
    · simp only [mapLookup, hk, if_true, Option.some.injEq] at h
      simp [hk, h]
    · simp only [mapLookup, hk, if_false] at h
      exact List.mem_cons_of_mem _ (ih h)

theorem mapLookup_of_mem {m : List (String × Nat)} {k : String} {v : Nat}
    (hnd : (m.map Prod.fst).Nodup) (h : (k, v) ∈ m) : mapLookup m k = some v := by
  induction m with
  | nil => simp at h
  | cons e rest ih =>
    obtain ⟨k', v'⟩ := e
    simp only [List.map_cons, List.nodup_cons, List.mem_map, not_exists, not_and] at hnd
    rcases List.mem_cons.mp h with heq | hmem
    · cases heq
      simp [mapLookup]
    · have hk : k' ≠ k := fun hkk => hnd.1 (k, v) hmem hkk.symm
      simp only [mapLookup, hk, if_false]
      exact ih hnd.2 hmem

theorem mapLookup_none_of_not_mem {m : List (String × Nat)} {k : String}
    (h : k ∉ m.map Prod.fst) : mapLookup m k = none := by
  cases hl : mapLookup m k with
  | none => rfl
  | some v => exact absurd (List.mem_map.mpr ⟨(k, v), mapLookup_mem hl, rfl⟩) h

theorem keys_eq_of_same_id {m : List (String × Nat)} {k₁ k₂ : String} {v : Nat}
    (hnd : (m.map Prod.snd).Nodup) (h₁ : (k₁, v) ∈ m) (h₂ : (k₂, v) ∈ m) : k₁ = k₂ := by
  induction m with
  | nil => simp at h₁
  | cons e rest ih =>
    simp only [List.map_cons, List.nodup_cons, List.mem_map, not_exists, not_and] at hnd
    rcases List.mem_cons.mp h₁ with e₁ | m₁ <;> rcases List.mem_cons.mp h₂ with e₂ | m₂
    · rw [← e₂] at e₁; exact congrArg Prod.fst e₁
    · exact absurd (by rw [← e₁]) (hnd.1 (k₂, v) m₂)
    · exact absurd (by rw [← e₂]) (hnd.1 (k₁, v) m₁)
    · exact ih hnd.2 m₁ m₂

theorem clientIds_eq : clientIds = List.range 43 := by decide

theorem serverIds_eq : serverIds = List.range 43 := by decide

theorem command_keys_nodup : (commands.map Prod.fst).Nodup := by decide

/-! ## C5: an arity rule for every registered command -/

/-- C5, evaluated on the code: the registered names msetnx, ztop and lrPop have
no arity rule. `checkCommand` accepts every token list that starts with one of
them, whatever the token count, so no count is rejected for these three; in
particular the shell line `ztop`, one token, is accepted. -/
theorem three_commands_accept_every_count (rest : List String) :
    mapLookup commands "msetnx" = some 3 ∧ checkCommand ("msetnx" :: rest) = some true ∧
    mapLookup commands "ztop" = some 42 ∧ checkCommand ("ztop" :: rest) = some true ∧
    mapLookup commands "lrPop" = some 19 ∧ checkCommand ("lrPop" :: rest) = some true ∧
    checkCommand (parseCommand (fun c => c) (TrimSpace "ztop")) = some true :=
  ⟨rfl, rfl, rfl, rfl, rfl, rfl, by decide⟩

/-! ## C6: unknown commands -/

/-- C6: for every non-empty token list whose first token is not a key of the
`commands` map, `checkCommand` returns false, whatever the number of tokens. -/
theorem unknown_command_rejected (name : String) (rest : List String)
    (h : name ∉ commands.map Prod.fst) : checkCommand (name :: rest) = some false := by
  simp [checkCommand, mapLookup_none_of_not_mem h]

/-- C6 at the token list `["flush", "a", "b"]`. -/
theorem unknown_command_rejected_witness :
    "flush" ∉ commands.map Prod.fst ∧ checkCommand ["flush", "a", "b"] = some false :=
  ⟨by decide, unknown_command_rejected "flush" ["a", "b"] (by decide)⟩

/-! ## C7: registered names are lowercase -/

/-- C7, evaluated on the code: the registered name `lrPop` is not its own
lowercasing, its lowercasing `lrpop` is not registered, and the shell rejects
the line `lrPop mylist` as an unknown command. -/
theorem lrPop_key_is_not_lowercase (lowerTable : Char → Char) :
    "lrPop" ∈ commands.map Prod.fst ∧
    ToLower lowerTable "lrPop" = "lrpop" ∧ "lrpop" ≠ "lrPop" ∧
    mapLookup commands "lrpop" = none ∧
    checkCommand (parseCommand lowerTable (TrimSpace "lrPop mylist")) = some false :=
  ⟨by decide, rfl, by decide, rfl, rfl⟩

/-! ## C8: client and server agree on the ids -/

/-- C8: no two names of the client's `commands` map share an id; an id is the
id of some client command exactly when the server registers a handler under it;
and the ids the server registers are 0 through 42. -/
theorem client_server_ids_agree :
    (∀ n₁ n₂ id, mapLookup commands n₁ = some id → mapLookup commands n₂ = some id →
      n₁ = n₂) ∧
    (∀ id, (∃ name, mapLookup commands name = some id) ↔ id ∈ serverIds) ∧
    (∀ id, id ∈ serverIds ↔ id < 43) ∧
    serverIds.Nodup := by
  have hnd : (commands.map Prod.snd).Nodup := by decide
  refine ⟨?_, ?_, ?_, by decide⟩
  · intro n₁ n₂ id h₁ h₂
    exact keys_eq_of_same_id hnd (mapLookup_mem h₁) (mapLookup_mem h₂)
  · intro id
    rw [serverIds_eq, ← clientIds_eq]
    constructor
    · rintro ⟨name, h⟩
      exact List.mem_map.mpr ⟨(name, id), mapLookup_mem h, rfl⟩
    · intro h
      obtain ⟨⟨name, id'⟩, hmem, hid⟩ := List.mem_map.mp h
      cases hid
      exact ⟨name, mapLookup_of_mem command_keys_nodup hmem⟩
  · intro id
    rw [serverIds_eq, List.mem_range]

/-! ## C9: request framing -/

theorem handleLoop_eq (n : Nat) (rest : List String) :
    ∀ (i : Nat) (data : List Byte), i + rest.length = n → 0 < i →
      handleLoop n i rest data = data ++ joinWithSpace (rest.map stringBytes) := by
  induction rest with
  | nil => intro i data _ _; simp [handleLoop, joinWithSpace]
  | cons a rest ih =>
    intro i data hn hi
    cases rest with
    | nil =>
      have : ¬ i < n - 1 := by simp only [List.length_cons, List.length_nil] at hn; omega
      simp [handleLoop, joinWithSpace, this]
    | cons b rest =>
      have hlt : i < n - 1 := by simp only [List.length_cons] at hn; omega
      have hsp : stringBytes " " = [byte 0x20] := by decide
      have := ih (i + 1) (data ++ stringBytes a ++ stringBytes " ")
        (by simp only [List.length_cons] at hn ⊢; omega) (by omega)
      rw [handleLoop]
      simp only [hlt, if_true]
      rw [this, hsp]
      simp only [List.map_cons, joinWithSpace, List.append_assoc]

theorem readFull_written (conn : Conn) (n : Nat) :
    (readFull conn n).1.written = conn.written := by
  unfold readFull
  split_ifs <;> rfl

theorem handle_written (conn : Conn) (c0 : String) (args : List String)
    (frame : List Byte)
    (hp : Pack (uint32 ((mapLookup commands c0).getD 0))
      (handleLoop (c0 :: args).length 1 args []) = .ok frame) :
    ∃ r, handle conn (c0 :: args) = some r ∧ r.1.written = conn.written ++ [frame] := by
  have h8 := readFull_written (connWrite conn frame) 8
  simp only [handle, hp]
  rcases hr : readFull (connWrite conn frame) 8 with ⟨conn₁, _ | headBuf⟩
  · rw [hr] at h8; exact ⟨_, rfl, h8⟩
  · rw [hr] at h8
    dsimp only
    rcases hu : UnPack headBuf with _ | msg
    · exact ⟨_, rfl, h8⟩
    · have hl := readFull_written conn₁ msg.length
      dsimp only
      rcases hd : readFull conn₁ msg.length with ⟨conn₂, _ | dataBuf⟩
      · rw [hd] at hl; exact ⟨_, rfl, hl.trans h8⟩
      · rw [hd] at hl; exact ⟨_, rfl, hl.trans h8⟩

theorem lookup_lt {name : String} {id : Nat} (h : mapLookup commands name = some id) :
    id < 43 := by
  have : id ∈ clientIds := List.mem_map.mpr ⟨(name, id), mapLookup_mem h, rfl⟩
  rwa [clientIds_eq, List.mem_range] at this

/-- C9: for every token list whose first token is a registered name with id
`id`, `handle` makes exactly one write, of the frame `Pack id p`, where `p` is
the bytes of the tokens after the name joined by exactly one space each, with
no space in front or behind (`p` is empty when only the name is there); and
for `["set", "foo", "bar"]` the frame written has selector 0, length 7 and the
payload `foo bar`. -/
theorem handle_writes_packed_request (conn : Conn) (name : String) (args : List String)
    (id : Nat) (h : mapLookup commands name = some id) :
    (∃ frame r, Pack id (joinWithSpace (args.map stringBytes)) = .ok frame ∧
      handle conn (name :: args) = some r ∧ r.1.written = conn.written ++ [frame]) ∧
    (joinWithSpace (([] : List String).map stringBytes) = [] ∧
      ∃ r, handle conn ["set", "foo", "bar"] = some r ∧
        r.1.written = conn.written ++
          [[0, 0, 0, 0, 7, 0, 0, 0, 102, 111, 111, 32, 98, 97, 114]]) := by
  refine ⟨?_, rfl, handle_written conn "set" ["foo", "bar"] _ rfl⟩
  obtain ⟨r, hr, hw⟩ := handle_written conn name args
    (putUint32 id ++ putUint32 (uint32 (joinWithSpace (args.map stringBytes)).length) ++
      joinWithSpace (args.map stringBytes))
    (by
      have hl := handleLoop_eq (name :: args).length args 1 []
        (by simp only [List.length_cons]; omega) (by omega)
      rw [hl, h, Option.getD_some, uint32, Nat.mod_eq_of_lt (by have := lookup_lt h; omega),
        List.nil_append, Pack_eq])
  exact ⟨_, r, Pack_eq _ _, hr, hw⟩

/-- C9 at the token list `["get", "foo"]` on a fresh connection: the one write
is the frame with selector 4, length 3 and the payload `foo`. -/
theorem handle_writes_packed_request_witness :
    mapLookup commands "get" = some 4 ∧
    ∃ frame r, Pack 4 (joinWithSpace (["foo"].map stringBytes)) = .ok frame ∧
      frame = [4, 0, 0, 0, 3, 0, 0, 0, 102, 111, 111] ∧
      handle ⟨[], []⟩ ["get", "foo"] = some r ∧ r.1.written = [] ++ [frame] := by
  obtain ⟨frame, r, hp, hr, hw⟩ :=
    (handle_writes_packed_request ⟨[], []⟩ "get" ["foo"] 4 rfl).1
  exact ⟨rfl, frame, r, hp, by cases hp; rfl, hr, hw⟩

/-! ## Lemmas on the shell -/

theorem fieldsBy_nil (sep : Char → Bool) : fieldsBy sep [] = [] := by
  rw [fieldsBy]

theorem fieldsBy_cons_sep (sep : Char → Bool) (c : Char) (cs : List Char) (h : sep c = true) :
    fieldsBy sep (c :: cs) = fieldsBy sep cs := by
  rw [fieldsBy, if_pos h]

theorem fieldsBy_cons_run (sep : Char → Bool) (c : Char) (cs : List Char) (h : sep c = false) :
    fieldsBy sep (c :: cs) =
      (c :: cs.takeWhile (fun d => !sep d)) :: fieldsBy sep (cs.dropWhile (fun d => !sep d)) := by
  rw [fieldsBy, if_neg (by simp [h])]

/-- The result of `splitChars` is never the empty list. -/
theorem splitChars_ne_nil (sep : Char) (l : List Char) : splitChars sep l ≠ [] := by
  cases l with
  | nil => simp [splitChars]
  | cons c cs =>
    rw [splitChars]
    split
    · simp
    · split <;> simp

/-- Splitting a stretch without separator followed by the rest: the stretch is
the first piece when the rest is empty or starts with a separator. -/
theorem splitChars_run (sep : Char) (c : Char) (cs : List Char) (h : c ≠ sep) :
    splitChars sep (c :: cs) =
      match cs.dropWhile (fun d => !(d == sep)) with
      | [] => [c :: cs.takeWhile (fun d => !(d == sep))]
      | _ :: rest => (c :: cs.takeWhile (fun d => !(d == sep))) :: splitChars sep rest := by
  induction cs generalizing c with
  | nil => simp [splitChars, h]
  | cons d ds ih =>
    rw [splitChars, if_neg h]
    by_cases hd : d = sep
    · subst hd
      simp [splitChars]
    · rw [ih d hd]
      have hb : (!(d == sep)) = true := by simp [hd]
      rw [List.dropWhile_cons_of_pos (p := fun d => !(d == sep)) (a := d) hb,
        List.takeWhile_cons_of_pos (p := fun d => !(d == sep)) (a := d) hb]
      rcases List.dropWhile (fun d => !(d == sep)) ds with _ | ⟨e, rest⟩ <;> rfl

theorem filter_splitChars (sep : Char) :
    ∀ (n : Nat) (l : List Char), l.length ≤ n →
      (splitChars sep l).filter (fun t => t ≠ []) = fieldsBy (fun c => c == sep) l := by
  intro n
  induction n with
  | zero =>
    intro l hl
    have : l = [] := List.length_eq_zero.mp (by omega)
    subst this
    simp [splitChars, fieldsBy_nil]
  | succ n ih =>
    intro l hl
    cases l with
    | nil => simp [splitChars, fieldsBy_nil]
    | cons c cs =>
      simp only [List.length_cons] at hl
      by_cases hc : c = sep
      · subst hc
        rw [splitChars, if_pos rfl, fieldsBy_cons_sep _ _ _ (by simp)]
        simpa using ih cs (by omega)
      · rw [splitChars_run sep c cs hc,
          fieldsBy_cons_run (fun c => c == sep) c cs (by simp [hc])]
        have hsuf := (List.dropWhile_suffix (l := cs) (fun d => !(d == sep))).length_le
        rcases hdw : cs.dropWhile (fun d => !(d == sep)) with _ | ⟨d, rest⟩
        · simp [fieldsBy_nil]
        · have hd : (d == sep) = true := by
            have := List.head_dropWhile_not (fun d => !(d == sep)) cs (by rw [hdw]; simp)
            simpa [hdw] using this
          rw [hdw, List.length_cons] at hsuf
          simp only [fieldsBy_cons_sep (fun c => c == sep) d rest hd]
          simpa using ih rest (by omega)

theorem mk_eq_empty (l : List Char) : (String.mk l = "") ↔ l = [] := by
  constructor
  · intro h; exact congrArg String.data h
  · rintro rfl; rfl

theorem filter_Split (s : String) :
    (Split s).filter (fun a => a ≠ "") = spaceFields s := by
  unfold Split spaceFields
  rw [List.filter_map, ← filter_splitChars ' ' s.data.length s.data (Nat.le_refl _)]
  congr 1
  apply List.filter_congr
  intro x _
  simp [mk_eq_empty]

theorem parseCommandLoop_pos (t : Char → Char) (arr : List String) :
    ∀ (i : Nat) (args : List String), 0 < i →
      parseCommandLoop t i arr args = args ++ arr.filter (fun a => a ≠ "") := by
  induction arr with
  | nil => intro i args _; simp [parseCommandLoop]
  | cons a rest ih =>
    intro i args hi
    rw [parseCommandLoop]
    by_cases ha : a = ""
    · rw [if_pos ha, ih (i + 1) args (by omega)]
      simp [ha]
    · rw [if_neg ha, if_neg (by omega), ih (i + 1) _ (by omega)]
      simp [ha]

theorem parseCommand_eq (t : Char → Char) (s : String) :
    parseCommand t s = parseCommandLoop t 0 (Split s) [] := by
  unfold parseCommand
  have : (Split s).length ≠ 0 := by
    simp [Split, splitChars_ne_nil]
  simp [this]

theorem TrimSpace_data (line : String) :
    (TrimSpace line).data = [] ∨
      ∃ c cs, (TrimSpace line).data = c :: cs ∧ isSpace c = false := by
  have key : ∀ (xs : List Char) (c : Char), isSpace c = false →
      ∃ ys, (xs ++ [c]).dropWhile isSpace = ys ++ [c] := by
    intro xs c hc
    induction xs with
    | nil => exact ⟨[], by simp [hc]⟩
    | cons x xs ih =>
      by_cases hx : isSpace x = true
      · obtain ⟨ys, hys⟩ := ih
        exact ⟨ys, by simp [hx, hys]⟩
      · exact ⟨x :: xs, by simp [hx]⟩
  unfold TrimSpace
  rcases hm : line.data.dropWhile isSpace with _ | ⟨c, cs⟩
  · left; simp
  · right
    have hc : isSpace c = false := by
      have := List.head_dropWhile_not isSpace line.data (by rw [hm]; simp)
      simpa [hm] using this
    obtain ⟨ys, hys⟩ := key cs.reverse c hc
    refine ⟨c, ys.reverse, ?_, hc⟩
    simp [hys]

theorem parseCommand_of_head (t : Char → Char) (s : String)
    (h : s.data = [] ∨ ∃ c cs, s.data = c :: cs ∧ c ≠ ' ') :
    parseCommand t s = lowerFirst t (spaceFields s) := by
  rw [parseCommand_eq, ← filter_Split]
  rcases h with h | ⟨c, cs, h, hc⟩
  · simp [Split, h, splitChars, parseCommandLoop, lowerFirst]
  · have hs : ∃ a rest, Split s = a :: rest ∧ a ≠ "" := by
      unfold Split
      rw [h, splitChars, if_neg hc]
      rcases splitChars ' ' cs with _ | ⟨x, xs⟩
      · exact ⟨_, _, rfl, by simp [mk_eq_empty]⟩
      · exact ⟨_, _, rfl, by simp [mk_eq_empty]⟩
    obtain ⟨a, rest, hsp, ha⟩ := hs
    rw [hsp, parseCommandLoop, if_neg ha, if_pos rfl, parseCommandLoop_pos t rest 1 _ (by omega)]
    simp [ha, lowerFirst]

/-! ## C10: shell tokenization -/

/-- C10, refuted as stated: on the line `set<TAB>foo bar`, which trimming leaves
unchanged, `parseCommand` returns the two tokens `set<TAB>foo` and `bar`, while
the maximal runs of non-white-space characters are `set`, `foo` and `bar`. -/
theorem tab_does_not_separate_tokens :
    parseCommand (fun c => c) (TrimSpace "set\tfoo bar") = ["set\tfoo", "bar"] ∧
    lowerFirst (fun c => c) (whitespaceFields (TrimSpace "set\tfoo bar")) =
      ["set", "foo", "bar"] ∧
    parseCommand (fun c => c) (TrimSpace "set\tfoo bar") ≠
      lowerFirst (fun c => c) (whitespaceFields (TrimSpace "set\tfoo bar")) := by
  have hd : (TrimSpace "set\tfoo bar").data =
      ['s', 'e', 't', '\t', 'f', 'o', 'o', ' ', 'b', 'a', 'r'] := by decide
  have hp : parseCommand (fun c => c) (TrimSpace "set\tfoo bar") = ["set\tfoo", "bar"] := by
    decide
  have hw : lowerFirst (fun c => c) (whitespaceFields (TrimSpace "set\tfoo bar")) =
      ["set", "foo", "bar"] := by
    have hf : whitespaceFields (TrimSpace "set\tfoo bar") = ["set", "foo", "bar"] := by
      simp [whitespaceFields, hd, fieldsBy, isSpace]
    rw [hf]
    rfl
  refine ⟨hp, hw, ?_⟩
  rw [hp, hw]
  decide

/-- C10, amended: for every input line, the client's `parseCommand` applied to
the white-space-trimmed line returns the line's maximal runs of characters
other than the space U+0020, in order, with the first run lowercased and every
other run unchanged. -/
theorem parseCommand_space_fields (lowerTable : Char → Char) (line : String) :
    parseCommand lowerTable (TrimSpace line) =
      lowerFirst lowerTable (spaceFields (TrimSpace line)) := by
  apply parseCommand_of_head
  rcases TrimSpace_data line with h | ⟨c, cs, h, hc⟩
  · exact Or.inl h
  · refine Or.inr ⟨c, cs, h, ?_⟩
    rintro rfl
    exact absurd hc (by decide)

/-! ## Further properties of the registry and of the request cycle -/

/-- Every registered name other than msetnx, ztop and lrPop has an enforced
arity rule: `checkCommand` rejects the name alone or the name followed by four
further tokens. -/
theorem other_commands_reject_some_count (name : String) (id : Nat)
    (h : (name, id) ∈ commands) (hne : name ∉ ["msetnx", "ztop", "lrPop"]) :
    checkCommand [name] = some false ∨
      checkCommand [name, "a", "b", "c", "d"] = some false := by
  have key : ∀ e ∈ commands, e.1 ∉ ["msetnx", "ztop", "lrPop"] →
      (checkCommand [e.1] = some false ∨
        checkCommand [e.1, "a", "b", "c", "d"] = some false) := by decide
  exact key (name, id) h hne

/-- A string of ASCII characters that are no capital letters is its own
lowercasing. -/
theorem ToLower_of_ascii_lower (t : Char → Char) (s : String)
    (h : s.data.all (fun c => decide (c.toNat < 0x80) && decide (c.toLower = c)) = true) :
    ToLower t s = s := by
  unfold ToLower
  have : s.data.map (lowerRune t) = s.data := by
    have hid : ∀ c ∈ s.data, lowerRune t c = c := by
      intro c hc
      have := List.all_eq_true.mp h c hc
      simp only [Bool.and_eq_true, decide_eq_true_eq] at this
      simp [lowerRune, this.1, this.2]
    calc s.data.map (lowerRune t) = s.data.map id := List.map_congr_left hid
      _ = s.data := List.map_id _
  rw [this]

/-- Every registered name other than lrPop equals its own lowercasing. -/
theorem other_keys_are_lowercase (lowerTable : Char → Char) (name : String) (id : Nat)
    (h : (name, id) ∈ commands) (hne : name ≠ "lrPop") : ToLower lowerTable name = name := by
  have key : ∀ e ∈ commands, e.1 ≠ "lrPop" →
      e.1.data.all (fun c => decide (c.toNat < 0x80) && decide (c.toLower = c)) = true := by
    decide
  exact ToLower_of_ascii_lower lowerTable name (key (name, id) h hne)

/-- Reading the exact length of a prefix of the incoming bytes returns that
prefix and leaves the rest. -/
theorem readFull_front (conn : Conn) (pre rest : List Byte)
    (h : conn.incoming = pre ++ rest) :
    readFull conn pre.length = ({ conn with incoming := rest }, .ok pre) := by
  unfold readFull
  by_cases h0 : pre.length = 0
  · have hp : pre = [] := List.length_eq_zero.mp h0
    subst hp
    rw [if_pos h0]
    simp only [List.nil_append] at h
    rw [← h]
  · have hlen : conn.incoming.length = pre.length + rest.length := by
      rw [h, List.length_append]
    rw [if_neg h0, if_neg (by omega), if_neg (by omega), h, List.drop_left, List.take_left]

/-- When the server's next bytes are a frame with status `status` and payload
`reply`, both within 32 bits, `handle` reads exactly that frame, returns
without error, prints `reply` and leaves the bytes behind the frame unread. -/
theorem handle_prints_reply (conn : Conn) (name : String) (args : List String)
    (status : Nat) (reply rest : List Byte)
    (hs : status < 2 ^ 32) (hl : reply.length < 2 ^ 32)
    (hin : conn.incoming = putUint32 status ++ putUint32 reply.length ++ reply ++ rest) :
    ∃ conn', handle conn (name :: args) = some (conn', .ok reply) ∧ conn'.incoming = rest := by
  have h8 : ∀ frame, readFull (connWrite conn frame) 8 =
      ({ connWrite conn frame with incoming := reply ++ rest },
        .ok (putUint32 status ++ putUint32 reply.length)) := by
    intro frame
    have := readFull_front (connWrite conn frame)
      (putUint32 status ++ putUint32 reply.length) (reply ++ rest)
      (by simp only [connWrite, hin, List.append_assoc])
    exact this
  have hu : UnPack (putUint32 status ++ putUint32 reply.length) =
      .ok { id := status, length := reply.length, data := [] } := by
    rw [UnPack_header, Nat.mod_eq_of_lt hs, Nat.mod_eq_of_lt hl]
  simp only [handle, Pack_eq, h8, hu]
  rw [readFull_front _ reply rest rfl]
  exact ⟨_, rfl, rfl⟩

/-- The rule for `hget`, at the name alone. -/
theorem other_commands_reject_some_count_witness :
    checkCommand ["hget"] = some false ∨
      checkCommand ["hget", "a", "b", "c", "d"] = some false :=
  other_commands_reject_some_count "hget" 11 (by decide) (by decide)

/-- The name `zscorerange` is its own lowercasing. -/
theorem other_keys_are_lowercase_witness :
    ToLower (fun c => c) "zscorerange" = "zscorerange" :=
  other_keys_are_lowercase (fun c => c) "zscorerange" 38 (by decide) (by decide)

/-- The reply `"OK"` with status 200 to `set foo bar`. -/
theorem handle_prints_reply_witness :
    ∃ conn', handle ⟨[], [200, 0, 0, 0, 4, 0, 0, 0, 34, 79, 75, 34]⟩ ["set", "foo", "bar"] =
      some (conn', .ok [34, 79, 75, 34]) ∧ conn'.incoming = [] :=
  handle_prints_reply ⟨[], [200, 0, 0, 0, 4, 0, 0, 0, 34, 79, 75, 34]⟩ "set" ["foo", "bar"]
    200 [34, 79, 75, 34] [] (by decide) (by decide) (by decide)

/-! ## C11: server argument splitting -/

theorem server_parseCommandLoop_eq (arr : List (List Byte)) :
    ∀ args, Server.parseCommandLoop arr args = args ++ arr := by
  induction arr with
  | nil => intro args; simp [Server.parseCommandLoop]
  | cons a rest ih => intro args; simp [Server.parseCommandLoop, ih]

theorem server_parseCommand_eq (p : List Byte) :
    Server.parseCommand p = splitBytes 0x20 p := by
  simp [Server.parseCommand, server_parseCommandLoop_eq]

theorem splitBytes_ne_nil (sep : Byte) (l : List Byte) : splitBytes sep l ≠ [] := by
  cases l with
  | nil => simp [splitBytes]
  | cons c cs =>
    rw [splitBytes]
    split
    · simp
    · split <;> simp

theorem splitBytes_length (sep : Byte) (l : List Byte) :
    (splitBytes sep l).length = l.count sep + 1 := by
  induction l with
  | nil => simp [splitBytes]
  | cons b bs ih =>
    rw [splitBytes]
    by_cases hb : b = sep
    · subst hb
      simp [ih]
    · rw [if_neg hb, List.count_cons_of_ne (Ne.symm hb)]
      rcases hs : splitBytes sep bs with _ | ⟨t, ts⟩
      · exact absurd hs (splitBytes_ne_nil sep bs)
      · rw [hs] at ih
        simpa using ih

theorem splitBytes_not_mem (sep : Byte) (l : List Byte) :
    ∀ a ∈ splitBytes sep l, sep ∉ a := by
  induction l with
  | nil => simp [splitBytes]
  | cons b bs ih =>
    rw [splitBytes]
    by_cases hb : b = sep
    · subst hb
      simpa using ih
    · rw [if_neg hb]
      rcases hs : splitBytes sep bs with _ | ⟨t, ts⟩
      · simp [Ne.symm hb]
      · rw [hs] at ih
        intro a ha
        rcases List.mem_cons.mp ha with rfl | hmem
        · have := ih t (List.mem_cons_self _ _)
          simp [Ne.symm hb, this]
        · exact ih a (List.mem_cons_of_mem _ hmem)

theorem joinWithSpace_splitBytes (l : List Byte) :
    joinWithSpace (splitBytes 0x20 l) = l := by
  induction l with
  | nil => simp [splitBytes, joinWithSpace]
  | cons b bs ih =>
    rw [splitBytes]
    by_cases hb : b = 0x20
    · subst hb
      rw [if_pos rfl]
      rcases hs : splitBytes 0x20 bs with _ | ⟨t, ts⟩
      · exact absurd hs (splitBytes_ne_nil _ bs)
      · rw [hs] at ih
        simp only [joinWithSpace, List.nil_append, ih]
        rfl
    · rw [if_neg hb]
      rcases hs : splitBytes 0x20 bs with _ | ⟨t, ts⟩
      · exact absurd hs (splitBytes_ne_nil _ bs)
      · rw [hs] at ih
        cases ts with
        | nil => simp only [joinWithSpace] at ih ⊢; rw [ih]
        | cons u us => simp only [joinWithSpace, List.cons_append] at ih ⊢; rw [ih]

/-- C11: for every payload `p`, the server's `parseCommand` returns exactly
(number of space bytes in `p`) + 1 arguments, none of which contains a space,
and joining them with single spaces gives back `p`, so nothing is escaped or
dropped; the empty payload yields one empty argument. -/
theorem server_parseCommand_splits_on_space (p : List Byte) :
    (Server.parseCommand p).length = p.count 0x20 + 1 ∧
    (∀ a ∈ Server.parseCommand p, (0x20 : Byte) ∉ a) ∧
    joinWithSpace (Server.parseCommand p) = p ∧
    Server.parseCommand [] = [[]] := by
  rw [server_parseCommand_eq]
  exact ⟨splitBytes_length _ p, splitBytes_not_mem _ p, joinWithSpace_splitBytes p, rfl⟩

/-! ## C12: one reply per request -/

theorem lookup_mem_routers {id : Nat} {name : String}
    (h : routers.lookup id = some name) : (id, name) ∈ routers := by
  have key : ∀ l : List (Nat × String), l.lookup id = some name → (id, name) ∈ l := by
    intro l
    induction l with
    | nil => intro h; simp [List.lookup] at h
    | cons e rest ih =>
      obtain ⟨k, v⟩ := e
      intro h
      by_cases hk : id = k
      · subst hk
        simp only [List.lookup, beq_self_eq_true, Option.some.injEq] at h
        subst h
        exact List.mem_cons_self _ _
      · have hb : (id == k) = false := by simpa using hk
        simp only [List.lookup, hb] at h
        exact List.mem_cons_of_mem _ (ih h)
  exact key routers h

theorem registered_cases {F : Type} {db : Server.DB F} {lib : GoLib F} {id : Nat}
    {h : List Byte → Option (List Reply)} (hr : Server.registered db lib id = some h) :
    ∃ name, (id, name) ∈ routers ∧ Server.handlerNamed db lib name = some h := by
  unfold Server.registered at hr
  split at hr
  · next name hl => exact ⟨name, lookup_mem_routers hl, hr⟩
  · cases hr

open Server in
/-- Every handler the server registers, other than `HGetRouter` (id 11), hands
exactly one reply to `SendMessage` whenever it runs to its end, whatever the
payload and whatever the engine returns. -/
theorem every_other_handler_replies_once {F : Type} (db : Server.DB F) (lib : GoLib F)
    (id : Nat) (h : List Byte → Option (List Reply)) (payload : List Byte)
    (rs : List Reply) (hr : Server.registered db lib id = some h) (hne : id ≠ 11)
    (hrs : h payload = some rs) : rs.length = 1 := by
  obtain ⟨name, hmem, hh⟩ := registered_cases hr
  simp only [routers, List.mem_cons, Prod.mk.injEq, List.mem_singleton, List.not_mem_nil,
    or_false] at hmem
  rcases hmem with ⟨rfl, rfl⟩ | ⟨rfl, rfl⟩ | ⟨rfl, rfl⟩ | ⟨rfl, rfl⟩ | ⟨rfl, rfl⟩ | ⟨rfl, rfl⟩ | ⟨rfl, rfl⟩ | ⟨rfl, rfl⟩ | ⟨rfl, rfl⟩ | ⟨rfl, rfl⟩ | ⟨rfl, rfl⟩ | ⟨rfl, rfl⟩ | ⟨rfl, rfl⟩ | ⟨rfl, rfl⟩ | ⟨rfl, rfl⟩ | ⟨rfl, rfl⟩ | ⟨rfl, rfl⟩ | ⟨rfl, rfl⟩ | ⟨rfl, rfl⟩ | ⟨rfl, rfl⟩ | ⟨rfl, rfl⟩ | ⟨rfl, rfl⟩ | ⟨rfl, rfl⟩ | ⟨rfl, rfl⟩ | ⟨rfl, rfl⟩ | ⟨rfl, rfl⟩ | ⟨rfl, rfl⟩ | ⟨rfl, rfl⟩ | ⟨rfl, rfl⟩ | ⟨rfl, rfl⟩ | ⟨rfl, rfl⟩ | ⟨rfl, rfl⟩ | ⟨rfl, rfl⟩ | ⟨rfl, rfl⟩ | ⟨rfl, rfl⟩ | ⟨rfl, rfl⟩ | ⟨rfl, rfl⟩ | ⟨rfl, rfl⟩ | ⟨rfl, rfl⟩ | ⟨rfl, rfl⟩ | ⟨rfl, rfl⟩ | ⟨rfl, rfl⟩ | ⟨rfl, rfl⟩
  all_goals first
    | exact absurd rfl hne
    | (cases hh
       simp only [SetRouter, MSetRouter, SetNxRouter, MSetNxRouter, GetRouter, MGetRouter, GetSetRouter, RemoveRouter, SLenRouter, HSetRouter, HSetNxRouter, HGetAllRouter, HDelRouter, HLenRouter, HExistRouter, LPushRouter, LRPushRouter, LPopRouter, LRPopRouter, LInsertRouter, LRInsertRouter, LSetRouter, LRemRouter, LLenRouter, LIndexRouter, LRangeRouter, LExistRouter, SAddRouter, SRemRouter, SMoveRouter, SUnionRouter, SDiffRouter, SScanRouter, SCardRouter, SIsMemberRouter, ZAddRouter, ZRemRouter, ZScoreRangeRouter, ZScoreRouter, ZCardRouter, ZIsMemberRouter, ZTopRouter,
         Option.bind_eq_bind, Option.bind_eq_some, Option.pure_def] at hrs
       repeat (refine Exists.elim hrs ?_; clear hrs; rintro _ ⟨_, hrs⟩)
       repeat' (split at hrs)
       all_goals first
         | (cases hrs; rfl)
         | (simp only [Option.bind_eq_some] at hrs
            refine Exists.elim hrs ?_; clear hrs; rintro _ ⟨_, hrs⟩
            cases hrs; rfl))
/-- C12, evaluated on the code: when the engine returns an empty value and no
error, `HGetRouter` hands two replies to `SendMessage`, first `(nil)` and then
the empty value itself, both with status 200. -/
theorem HGetRouter_replies_twice_on_empty_value {F : Type} (db : Server.DB F)
    (payload c0 c1 : List Byte) (rest : List (List Byte))
    (hc : Server.parseCommand payload = c0 :: c1 :: rest)
    (he : db.HGet c0 c1 = ([], none)) :
    Server.HGetRouter db payload =
      some [⟨200, stringBytes "(nil)"⟩, ⟨200, []⟩] := by
  simp [Server.HGetRouter, hc, he]

/-- C12 on the engine with an empty store and the payload `h f`, the request
`hget h f`: two replies. -/
theorem HGetRouter_replies_twice_on_empty_value_witness :
    Server.HGetRouter emptyDB (stringBytes "h f") =
      some [⟨200, stringBytes "(nil)"⟩, ⟨200, []⟩] :=
  HGetRouter_replies_twice_on_empty_value emptyDB (stringBytes "h f")
    (stringBytes "h") (stringBytes "f") [] (by decide) rfl

/-! ## C13: scalar reply of get -/

/-- C13: for every engine and payload, with `c0` the first argument of the
payload: when `Get` reports an error, `GetRouter` replies once with status 400
and the error's text; when it returns an empty (or nil) value without error,
once with status 200 and the five bytes `(nil)`; otherwise once with status 200
and the value unchanged. -/
theorem GetRouter_reply {F : Type} (db : Server.DB F) (payload c0 : List Byte)
    (rest : List (List Byte)) (hc : Server.parseCommand payload = c0 :: rest) :
    (∀ res err, db.Get c0 = (res, some err) →
      Server.GetRouter db payload = some [⟨400, err⟩]) ∧
    (db.Get c0 = ([], none) →
      Server.GetRouter db payload = some [⟨200, [40, 110, 105, 108, 41]⟩]) ∧
    (∀ res, res ≠ [] → db.Get c0 = (res, none) →
      Server.GetRouter db payload = some [⟨200, res⟩]) ∧
    stringBytes "(nil)" = [40, 110, 105, 108, 41] := by
  refine ⟨?_, ?_, ?_, by decide⟩
  · intro res err h
    simp [Server.GetRouter, hc, h]
  · intro h
    simp [Server.GetRouter, hc, h]
    decide
  · intro res hne h
    simp [Server.GetRouter, hc, h, hne]

/-- C13 on the engine with an empty store and the payload `missing`, the
request `get missing`: the reply is `(nil)` with status 200. -/
theorem GetRouter_reply_witness :
    Server.GetRouter emptyDB (stringBytes "missing") =
      some [⟨200, [40, 110, 105, 108, 41]⟩] :=
  (GetRouter_reply emptyDB (stringBytes "missing") (stringBytes "missing") []
    (by decide)).2.1 rfl

/-! ## C14: multi-valued reply, non-empty -/

theorem Itoa_natCast (i : Nat) : Itoa (i : Int) = decimal i := rfl

theorem writeValues_eq (n : Nat) (rest : List (List Byte)) :
    ∀ (i : Nat) (b : List Byte), i + rest.length = n →
      Server.writeValues n i rest b =
        b ++ joinLines ((rest.enumFrom i).map (fun p => valueLine p.1 p.2)) := by
  induction rest with
  | nil => intro i b _; simp [Server.writeValues, joinLines]
  | cons r rest ih =>
    intro i b hn
    have hnl : stringBytes "\n" = [byte 0x0A] := by decide
    have hline : ∀ tail : List Byte,
        (if r.length = 0 then
            Server.writeValues n (i + 1) rest
              (b ++ Itoa (i : Int) ++ stringBytes ") (nil)" ++ tail)
          else
            Server.writeValues n (i + 1) rest
              (b ++ Itoa (i : Int) ++ stringBytes ") " ++ r ++ tail)) =
          Server.writeValues n (i + 1) rest (b ++ valueLine i r ++ tail) := by
      intro tail
      have h1 : stringBytes ") (nil)" = stringBytes ") " ++ stringBytes "(nil)" := by decide
      by_cases hr : r = []
      · subst hr
        simp [valueLine, Itoa_natCast, h1, List.append_assoc]
      · have : r.length ≠ 0 := by simpa using hr
        simp [valueLine, Itoa_natCast, hr, this, List.append_assoc]
    cases rest with
    | nil =>
      have hlt : ¬ i < n - 1 := by simp only [List.length_cons, List.length_nil] at hn; omega
      have := hline []
      simp only [List.append_nil] at this
      rw [Server.writeValues]
      simp only [hlt, if_false]
      rw [this]
      simp [Server.writeValues, joinLines, List.enumFrom]
    | cons r' rest' =>
      have hlt : i < n - 1 := by simp only [List.length_cons] at hn; omega
      have := hline [byte 0x0A]
      rw [Server.writeValues]
      simp only [hlt, if_true, hnl]
      rw [this, ih (i + 1) _ (by simp only [List.length_cons] at hn ⊢; omega)]
      simp only [List.enumFrom_cons, List.map_cons, joinLines, List.append_assoc]

theorem writeValues_lines (res : List (List Byte)) :
    Server.writeValues res.length 0 res [] = joinLines (valueLines res) := by
  rw [writeValues_eq res.length res 0 [] (by omega)]
  rfl
/-- C14: when the engine returns a non-empty list `res` without error to
`MGetRouter`, `HGetAllRouter`, `LRangeRouter`, `SUnionRouter`, `SDiffRouter` or
`SScanRouter`, the handler replies once, with status 200 and the payload made
of the lines `L_0, ..., L_{n-1}` joined by single newlines with none trailing,
`L_i` being the decimal of `i`, then `") "`, then `res[i]`, or `(nil)` when
`res[i]` is empty; for `res = [empty, v, empty]` the payload is
`0) (nil)\n1) v\n2) (nil)`. -/
theorem multi_valued_reply_nonempty {F : Type} (db : Server.DB F) (lib : GoLib F)
    (payload : List Byte) (res : List (List Byte)) (hne : res ≠ []) :
    (db.MGet (Server.parseCommand payload) = (res, none) →
      Server.MGetRouter db payload = some [⟨200, joinLines (valueLines res)⟩]) ∧
    (∀ c0 rest, Server.parseCommand payload = c0 :: rest → db.HGetAll c0 = (res, none) →
      Server.HGetAllRouter db payload = some [⟨200, joinLines (valueLines res)⟩]) ∧
    (∀ c0 c1 c2 rest, Server.parseCommand payload = c0 :: c1 :: c2 :: rest →
      db.LRange c0 (lib.Atoi c1) (lib.Atoi c2) = (res, none) →
      Server.LRangeRouter db lib payload = some [⟨200, joinLines (valueLines res)⟩]) ∧
    (db.SUnion (Server.parseCommand payload) = (res, none) →
      Server.SUnionRouter db payload = some [⟨200, joinLines (valueLines res)⟩]) ∧
    (db.SDiff (Server.parseCommand payload) = (res, none) →
      Server.SDiffRouter db payload = some [⟨200, joinLines (valueLines res)⟩]) ∧
    (∀ c0 rest, Server.parseCommand payload = c0 :: rest → db.SScan c0 = (res, none) →
      Server.SScanRouter db payload = some [⟨200, joinLines (valueLines res)⟩]) ∧
    joinLines (valueLines [[], stringBytes "v", []]) =
      stringBytes "0) (nil)\n1) v\n2) (nil)" := by
  refine ⟨?_, ?_, ?_, ?_, ?_, ?_, by decide⟩
  · intro h
    simp [Server.MGetRouter, h, writeValues_lines]
  · intro c0 rest hc h
    simp [Server.HGetAllRouter, hc, h, hne, writeValues_lines]
  · intro c0 c1 c2 rest hc h
    simp [Server.LRangeRouter, hc, h, hne, writeValues_lines]
  · intro h
    simp [Server.SUnionRouter, h, hne, writeValues_lines]
  · intro h
    simp [Server.SDiffRouter, h, hne, writeValues_lines]
  · intro c0 rest hc h
    simp [Server.SScanRouter, hc, h, hne, writeValues_lines]

/-- C14 on the engine that holds only the key `b`, value `v`, and the payload
`a b c`, the request `mget a b c`: the reply is `0) (nil)\n1) v\n2) (nil)`. -/
theorem multi_valued_reply_nonempty_witness :
    Server.MGetRouter storeWithB (stringBytes "a b c") =
      some [⟨200, stringBytes "0) (nil)\n1) v\n2) (nil)"⟩] :=
  (multi_valued_reply_nonempty storeWithB wholeNumberLib (stringBytes "a b c")
    [[], stringBytes "v", []] (by decide)).1 rfl
/-! ## C15: multi-valued reply, empty -/

/-- C15, evaluated on the code: when the engine returns an empty list without
error to `MGetRouter`, the reply has status 200 and an empty payload, not the
literal `(empty list)`. -/
theorem MGetRouter_empty_result_reply {F : Type} (db : Server.DB F) (payload : List Byte)
    (h : db.MGet (Server.parseCommand payload) = ([], none)) :
    Server.MGetRouter db payload = some [⟨200, []⟩] ∧
    ([] : List Byte) ≠ stringBytes "(empty list)" := by
  refine ⟨?_, by decide⟩
  simp [Server.MGetRouter, h, Server.writeValues]

/-- C15 on the engine with an empty store and the payload `a`. -/
theorem MGetRouter_empty_result_reply_witness :
    Server.MGetRouter emptyDB (stringBytes "a") = some [⟨200, []⟩] :=
  (MGetRouter_empty_result_reply emptyDB (stringBytes "a") rfl).1

/-- The other seven handlers of multi-valued results reply to an empty result
without error with status 200 and the literal `(empty list)`. -/
theorem empty_list_reply_of_other_handlers {F : Type} (db : Server.DB F) (lib : GoLib F)
    (payload : List Byte) :
    (∀ c0 rest, Server.parseCommand payload = c0 :: rest → db.HGetAll c0 = ([], none) →
      Server.HGetAllRouter db payload = some [⟨200, stringBytes "(empty list)"⟩]) ∧
    (∀ c0 c1 c2 rest, Server.parseCommand payload = c0 :: c1 :: c2 :: rest →
      db.LRange c0 (lib.Atoi c1) (lib.Atoi c2) = ([], none) →
      Server.LRangeRouter db lib payload = some [⟨200, stringBytes "(empty list)"⟩]) ∧
    (db.SUnion (Server.parseCommand payload) = ([], none) →
      Server.SUnionRouter db payload = some [⟨200, stringBytes "(empty list)"⟩]) ∧
    (db.SDiff (Server.parseCommand payload) = ([], none) →
      Server.SDiffRouter db payload = some [⟨200, stringBytes "(empty list)"⟩]) ∧
    (∀ c0 rest, Server.parseCommand payload = c0 :: rest → db.SScan c0 = ([], none) →
      Server.SScanRouter db payload = some [⟨200, stringBytes "(empty list)"⟩]) ∧
    (∀ c0 c1 c2 rest, Server.parseCommand payload = c0 :: c1 :: c2 :: rest →
      db.ZScoreRange c0 (lib.ParseFloat c1) (lib.ParseFloat c2) = ([], none) →
      Server.ZScoreRangeRouter db lib payload = some [⟨200, stringBytes "(empty list)"⟩]) ∧
    (∀ c0 c1 rest, Server.parseCommand payload = c0 :: c1 :: rest →
      db.ZTop c0 (lib.Atoi c1) = ([], none) →
      Server.ZTopRouter db lib payload = some [⟨200, stringBytes "(empty list)"⟩]) := by
  refine ⟨?_, ?_, ?_, ?_, ?_, ?_, ?_⟩
  · intro c0 rest hc h
    simp [Server.HGetAllRouter, hc, h]
  · intro c0 c1 c2 rest hc h
    simp [Server.LRangeRouter, hc, h]
  · intro h
    simp [Server.SUnionRouter, h]
  · intro h
    simp [Server.SDiffRouter, h]
  · intro c0 rest hc h
    simp [Server.SScanRouter, hc, h]
  · intro c0 c1 c2 rest hc h
    simp [Server.ZScoreRangeRouter, hc, h]
  · intro c0 c1 rest hc h
    simp [Server.ZTopRouter, hc, h]

/-! ## C16: sorted-set pair rendering -/

theorem writePairs_eq {F : Type} (lib : GoLib F) (n : Nat) (pairs : List (List Byte × F)) :
    ∀ (j : Nat) (b : List Byte), 2 * j + 2 * pairs.length = n →
      Server.writePairs lib n (2 * j) (memberScoreItems pairs) b =
        some (b ++ joinLines
          ((pairs.enumFrom j).flatMap (fun q => pairLines lib.Sprintf q.1 q.2))) := by
  induction pairs with
  | nil => intro j b _; simp [Server.writePairs, memberScoreItems, joinLines]
  | cons p pairs ih =>
    intro j b hn
    have hnl : stringBytes "\n" = [byte 0x0A] := by decide
    have h1 : 2 * j < n - 1 := by simp only [List.length_cons] at hn; omega
    have hi : ((2 * j : Nat) : Int) + 1 = ((2 * j + 1 : Nat) : Int) := by push_cast; ring
    have hcons : memberScoreItems (p :: pairs) =
        ZItem.str p.1 :: ZItem.num p.2 :: memberScoreItems pairs := by
      simp [memberScoreItems]
    rw [hcons, Server.writePairs]
    simp only [h1, if_true, hnl, hi, Itoa_natCast]
    have hstep : 2 * j + 2 = 2 * (j + 1) := by ring
    rw [hstep]
    cases pairs with
    | nil =>
      have h2 : ¬ 2 * j < n - 2 := by simp only [List.length_cons, List.length_nil] at hn; omega
      simp only [h2, if_false]
      simp [memberScoreItems, Server.writePairs, List.enumFrom, pairLines, joinLines]
    | cons p' pairs' =>
      have h2 : 2 * j < n - 2 := by simp only [List.length_cons] at hn; omega
      simp only [h2, if_true]
      rw [ih (j + 1) _ (by simp only [List.length_cons] at hn ⊢; omega)]
      simp only [List.enumFrom_cons, List.flatMap_cons, pairLines, List.cons_append,
        List.nil_append, joinLines, List.append_assoc]
theorem memberScoreItems_length {F : Type} (pairs : List (List Byte × F)) :
    (memberScoreItems pairs).length = 2 * pairs.length := by
  induction pairs with
  | nil => rfl
  | cons p ps ih =>
    have : memberScoreItems (p :: ps) = ZItem.str p.1 :: ZItem.num p.2 :: memberScoreItems ps := by
      simp [memberScoreItems]
    rw [this]
    simp only [List.length_cons, ih]
    omega

theorem writePairs_lines {F : Type} (lib : GoLib F) (pairs : List (List Byte × F)) :
    Server.writePairs lib (memberScoreItems pairs).length 0 (memberScoreItems pairs) [] =
      some (joinLines (memberScoreLines lib.Sprintf pairs)) := by
  have := writePairs_eq lib (memberScoreItems pairs).length pairs 0 []
    (by rw [memberScoreItems_length]; omega)
  simpa [memberScoreLines, List.enum] using this

/-- C16: when the engine returns the non-empty result `m_0, s_0, m_1, s_1, ...`
without error to `ZScoreRangeRouter` or `ZTopRouter`, the handler replies once,
with status 200 and the payload made of two lines per pair, joined by single
newlines with none trailing: line `2j` is the decimal of `2j`, then `") "`,
then the member `m_j`; line `2j + 1` is the decimal of `2j + 1`, then `") "`,
then the rendering of the score `s_j` by `fmt.Sprintf("%f", ...)`, a given
function. -/
theorem sorted_set_pair_reply {F : Type} (db : Server.DB F) (lib : GoLib F)
    (payload : List Byte) (pairs : List (List Byte × F)) (hne : pairs ≠ []) :
    (∀ c0 c1 c2 rest, Server.parseCommand payload = c0 :: c1 :: c2 :: rest →
      db.ZScoreRange c0 (lib.ParseFloat c1) (lib.ParseFloat c2) =
        (memberScoreItems pairs, none) →
      Server.ZScoreRangeRouter db lib payload =
        some [⟨200, joinLines (memberScoreLines lib.Sprintf pairs)⟩]) ∧
    (∀ c0 c1 rest, Server.parseCommand payload = c0 :: c1 :: rest →
      db.ZTop c0 (lib.Atoi c1) = (memberScoreItems pairs, none) →
      Server.ZTopRouter db lib payload =
        some [⟨200, joinLines (memberScoreLines lib.Sprintf pairs)⟩]) ∧
    (memberScoreLines lib.Sprintf pairs).length = 2 * pairs.length := by
  have hlen : (memberScoreItems pairs).length ≠ 0 := by
    rw [memberScoreItems_length]
    have : pairs.length ≠ 0 := by simpa using hne
    omega
  refine ⟨?_, ?_, ?_⟩
  · intro c0 c1 c2 rest hc h
    simp [Server.ZScoreRangeRouter, hc, h, hlen, writePairs_lines]
  · intro c0 c1 rest hc h
    simp [Server.ZTopRouter, hc, h, hlen, writePairs_lines]
  · have key : ∀ (ps : List (List Byte × F)) (j : Nat),
        ((ps.enumFrom j).flatMap (fun q => pairLines lib.Sprintf q.1 q.2)).length =
          2 * ps.length := by
      intro ps
      induction ps with
      | nil => intro j; rfl
      | cons p ps ih =>
        intro j
        rw [List.enumFrom_cons, List.flatMap_cons, List.length_append, ih (j + 1)]
        simp only [pairLines, List.length_cons, List.length_nil]
        omega
    exact key pairs 0

/-- C16 on the engine whose sorted set holds `a` with score 1 and `b` with
score 2, and the payload `z 2`, the request `ztop z 2`: the reply is
`0) a\n1) 1.000000\n2) b\n3) 2.000000`. -/
theorem sorted_set_pair_reply_witness :
    Server.ZTopRouter scoreBoard wholeNumberLib (stringBytes "z 2") =
      some [⟨200, stringBytes "0) a\n1) 1.000000\n2) b\n3) 2.000000"⟩] :=
  (sorted_set_pair_reply scoreBoard wholeNumberLib (stringBytes "z 2")
    [(stringBytes "a", 1), (stringBytes "b", 2)] (by decide)).2.1
    (stringBytes "z") (stringBytes "2") [] (by decide) rfl

/-! ## C17: the keep-alive frame -/

theorem heartBeatRound_eq (conn : Conn) :
    heartBeatRound conn = connWrite conn [100, 0, 0, 0, 0, 0, 0, 0] := rfl

/-- C17: the first `n` rounds of `heartBeat` write `n` frames and nothing
else, each frame being `Pack(100, empty payload)`, the 8 bytes
`64 00 00 00 00 00 00 00`, which decode to selector 100 and length 0; the
selector 100 is the server's `DefaultHeartPackageId` and the id of no
registered command. -/
theorem keepalive_frame (n : Nat) (conn : Conn) :
    (heartBeat n conn).written =
      conn.written ++ List.replicate n [0x64, 0, 0, 0, 0, 0, 0, 0] ∧
    Pack 100 [] = .ok [0x64, 0, 0, 0, 0, 0, 0, 0] ∧
    UnPack [0x64, 0, 0, 0, 0, 0, 0, 0] = .ok { id := 100, length := 0, data := [] } ∧
    Server.DefaultHeartPackageId = 100 ∧
    (∀ name, mapLookup commands name ≠ some 100) := by
  refine ⟨?_, rfl, rfl, rfl, ?_⟩
  · induction n generalizing conn with
    | zero => simp [heartBeat]
    | succ n ih =>
      rw [heartBeat, ih, heartBeatRound_eq]
      simp only [connWrite, List.replicate_succ, List.append_assoc, List.singleton_append]
  · intro name h
    have := lookup_lt h
    omega

/-! ## C18: arguments survive the wire -/

theorem char_toNat_lt (c : Char) : c.toNat < 0x110000 := by
  have := c.valid
  unfold UInt32.isValidChar Nat.isValidChar at this
  show c.val.toNat < _
  omega

theorem char_eq_space_of_toNat {c : Char} (h : c.toNat = 32) : c = ' ' := by
  rw [← Char.ofNat_toNat c, h]

/-- The UTF-8 bytes of a character other than the space hold no byte 0x20. -/
theorem encodeRune_no_space (c : Char) (h : c ≠ ' ') : (0x20 : Byte) ∉ encodeRune c := by
  have hlt := char_toNat_lt c
  have hne : c.toNat ≠ 32 := fun h32 => h (char_eq_space_of_toNat h32)
  have key : ∀ v : Nat, v % 256 ≠ 32 → (0x20 : Byte) ≠ byte v := by
    intro v hv heq
    have := congrArg Fin.val heq
    simp only [byte] at this
    exact hv this.symm
  unfold encodeRune
  simp only []
  split_ifs with h1 h2 h3
  · simp only [List.mem_singleton]
    exact key _ (by omega)
  · simp only [List.mem_cons, List.mem_singleton, List.not_mem_nil, or_false, not_or]
    exact ⟨key _ (by omega), key _ (by omega)⟩
  · simp only [List.mem_cons, List.mem_singleton, List.not_mem_nil, or_false, not_or]
    exact ⟨key _ (by omega), key _ (by omega), key _ (by omega)⟩
  · simp only [List.mem_cons, List.mem_singleton, List.not_mem_nil, or_false, not_or]
    exact ⟨key _ (by omega), key _ (by omega), key _ (by omega), key _ (by omega)⟩

theorem stringBytes_no_space (s : String) (h : ' ' ∉ s.data) :
    (0x20 : Byte) ∉ stringBytes s := by
  unfold stringBytes
  intro hmem
  obtain ⟨c, hc, hb⟩ := List.mem_flatMap.mp hmem
  exact encodeRune_no_space c (fun heq => h (heq ▸ hc)) hb

/-- A run of `fieldsBy` is not empty and holds no separator. -/
theorem fieldsBy_mem (sep : Char → Bool) :
    ∀ (n : Nat) (l : List Char), l.length ≤ n →
      ∀ t ∈ fieldsBy sep l, t ≠ [] ∧ ∀ c ∈ t, sep c = false := by
  intro n
  induction n with
  | zero =>
    intro l hl t ht
    have : l = [] := List.length_eq_zero.mp (by omega)
    subst this
    simp [fieldsBy_nil] at ht
  | succ n ih =>
    intro l hl t ht
    cases l with
    | nil => simp [fieldsBy_nil] at ht
    | cons c cs =>
      simp only [List.length_cons] at hl
      by_cases hc : sep c = true
      · rw [fieldsBy_cons_sep sep c cs hc] at ht
        exact ih cs (by omega) t ht
      · have hc' : sep c = false := by simpa using hc
        rw [fieldsBy_cons_run sep c cs hc'] at ht
        rcases List.mem_cons.mp ht with rfl | hmem
        · refine ⟨by simp, ?_⟩
          intro d hd
          rcases List.mem_cons.mp hd with rfl | hd'
          · exact hc'
          · have := List.mem_takeWhile_imp hd'
            simpa using this
        · have hsuf := (List.dropWhile_suffix (l := cs) (fun d => !sep d)).length_le
          exact ih _ (by omega) t hmem

theorem splitBytes_join (parts : List (List Byte)) (hne : parts ≠ [])
    (h : ∀ p ∈ parts, (0x20 : Byte) ∉ p) :
    splitBytes 0x20 (joinWithSpace parts) = parts := by
  have hrun : ∀ (p tail : List Byte), (0x20 : Byte) ∉ p →
      splitBytes 0x20 (p ++ tail) =
        match splitBytes 0x20 tail with
        | [] => [p]
        | t :: ts => (p ++ t) :: ts := by
    intro p tail hp
    induction p with
    | nil =>
      rcases hs : splitBytes 0x20 tail with _ | ⟨t, ts⟩
      · exact absurd hs (splitBytes_ne_nil _ _)
      · simp [hs]
    | cons b bs ih =>
      have hb : b ≠ 0x20 := fun heq => hp (heq ▸ List.mem_cons_self _ _)
      have hbs : (0x20 : Byte) ∉ bs := fun hm => hp (List.mem_cons_of_mem _ hm)
      rw [List.cons_append, splitBytes, if_neg hb, ih hbs]
      rcases splitBytes 0x20 tail with _ | ⟨t, ts⟩ <;> rfl
  induction parts with
  | nil => exact absurd rfl hne
  | cons p rest ih =>
    have hp : (0x20 : Byte) ∉ p := h p (List.mem_cons_self _ _)
    cases rest with
    | nil =>
      have := hrun p [] hp
      simpa [joinWithSpace, splitBytes] using this
    | cons q rest' =>
      have hrest := ih (by simp) (fun x hx => h x (List.mem_cons_of_mem _ hx))
      have := hrun p ([byte 0x20] ++ joinWithSpace (q :: rest')) hp
      have hsp : splitBytes 0x20 ([byte 0x20] ++ joinWithSpace (q :: rest')) =
          [] :: splitBytes 0x20 (joinWithSpace (q :: rest')) := by
        rw [List.singleton_append, splitBytes]
        rfl
      rw [hsp, hrest] at this
      simpa [joinWithSpace, List.append_assoc] using this

/-- The tokens `parseCommand` returns behind the first one are runs of the
trimmed line: none is empty and none holds a space. -/
theorem parseCommand_args (lowerTable : Char → Char) (line name : String)
    (args : List String)
    (h : parseCommand lowerTable (TrimSpace line) = name :: args) :
    ∀ a ∈ args, a ≠ "" ∧ ' ' ∉ a.data := by
  have hp := parseCommand_of_head lowerTable (TrimSpace line) (by
    rcases TrimSpace_data line with h0 | ⟨c, cs, h0, hc⟩
    · exact Or.inl h0
    · exact Or.inr ⟨c, cs, h0, by rintro rfl; exact absurd hc (by decide)⟩)
  rw [hp] at h
  intro a ha
  rcases hf : spaceFields (TrimSpace line) with _ | ⟨f, fs⟩
  · rw [hf] at h; simp [lowerFirst] at h
  · rw [hf] at h
    simp only [lowerFirst, List.cons.injEq] at h
    have hmem : a ∈ spaceFields (TrimSpace line) := by
      rw [hf, h.2]; exact List.mem_cons_of_mem _ ha
    unfold spaceFields at hmem
    obtain ⟨t, ht, rfl⟩ := List.mem_map.mp hmem
    have := fieldsBy_mem (fun c => c == ' ') _ _ (Nat.le_refl _) t ht
    refine ⟨fun he => this.1 ((mk_eq_empty t).mp he), ?_⟩
    intro hsp
    have := this.2 ' ' hsp
    simp at this

/-- C18: for every line whose trimmed form parses into a command name and at
least one further token, the frame `handle` writes carries, behind its 8
header bytes, a payload that the server's `parseCommand` splits into exactly
the client's tokens behind the name, in the same order and with the same
bytes; those tokens are never empty and never hold a space. -/
theorem arguments_survive_the_wire (lowerTable : Char → Char) (line name arg : String)
    (args : List String) (conn : Conn)
    (h : parseCommand lowerTable (TrimSpace line) = name :: arg :: args) :
    (∃ frame r, handle conn (name :: arg :: args) = some r ∧
      r.1.written = conn.written ++ [frame] ∧
      Server.parseCommand (frame.drop 8) = (arg :: args).map stringBytes) ∧
    (∀ a ∈ arg :: args, a ≠ "" ∧ ' ' ∉ a.data) := by
  have htok := parseCommand_args lowerTable line name (arg :: args) h
  refine ⟨?_, htok⟩
  have hl := handleLoop_eq (name :: arg :: args).length (arg :: args) 1 []
    (by simp only [List.length_cons]; omega) (by omega)
  obtain ⟨r, hr, hw⟩ := handle_written conn name (arg :: args) _ (Pack_eq _ _)
  refine ⟨_, r, hr, hw, ?_⟩
  rw [List.drop_left' (by rfl), hl, List.nil_append, server_parseCommand_eq]
  apply splitBytes_join
  · simp
  · intro p hp
    obtain ⟨a, ha, rfl⟩ := List.mem_map.mp hp
    exact stringBytes_no_space a (htok a ha).2

/-- C18 on the line `  SET  foo   bar `: the server receives `foo` and `bar`. -/
theorem arguments_survive_the_wire_witness :
    ∃ frame r, handle ⟨[], []⟩ ["set", "foo", "bar"] = some r ∧
      r.1.written = [] ++ [frame] ∧
      Server.parseCommand (frame.drop 8) = [stringBytes "foo", stringBytes "bar"] :=
  (arguments_survive_the_wire (fun c => c) "  SET  foo   bar " "set" "foo" ["bar"]
    ⟨[], []⟩ (by decide)).1

/-! ## C19: client validation and server indexing -/

theorem count_joinWithSpace (parts : List (List Byte)) :
    parts.length ≤ (joinWithSpace parts).count 0x20 + 1 := by
  induction parts with
  | nil => simp
  | cons p rest ih =>
    cases rest with
    | nil => simp
    | cons q rest' =>
      have hb : byte 0x20 = (0x20 : Byte) := rfl
      simp only [joinWithSpace, List.count_append, List.length_cons, hb,
        List.count_singleton_self] at ih ⊢
      omega

theorem server_args_length (args : List String) :
    args.length ≤ (Server.parseCommand (joinWithSpace (args.map stringBytes))).length ∧
    1 ≤ (Server.parseCommand (joinWithSpace (args.map stringBytes))).length := by
  rw [server_parseCommand_eq, splitBytes_length]
  have := count_joinWithSpace (args.map stringBytes)
  simp only [List.length_map] at this
  omega

theorem not_of_accepted {x : Option Bool} {c : Prop} [Decidable c]
    (h : x = some true) (hx : x = (if c then some false else some true)) : ¬ c := by
  intro hc
  rw [hx, if_pos hc] at h
  cases h

set_option maxHeartbeats 4000000 in
/-- Every token list that `checkCommand` accepts and whose command is not
`ztop` drives the handler registered under its id to its end on the payload
`handle` builds: no argument index is out of range. The engine's
`ZScoreRange` results are taken to be member and score in turn. -/
theorem accepted_commands_do_not_panic {F : Type} (db : Server.DB F) (lib : GoLib F)
    (name : String) (args : List String) (id : Nat)
    (h : List Byte → Option (List Reply))
    (hacc : checkCommand (name :: args) = some true)
    (hid : mapLookup commands name = some id)
    (hreg : Server.registered db lib id = some h)
    (hz : name ≠ "ztop")
    (hw : ∀ key lo hi, ∃ pairs, (db.ZScoreRange key lo hi).1 = memberScoreItems pairs) :
    (h (joinWithSpace (args.map stringBytes))).isSome := by
  have hmem := mapLookup_mem hid
  simp only [commands, List.mem_cons, Prod.mk.injEq, List.mem_singleton, List.not_mem_nil,
    or_false] at hmem
  rcases hmem with ⟨rfl, rfl⟩ | ⟨rfl, rfl⟩ | ⟨rfl, rfl⟩ | ⟨rfl, rfl⟩ | ⟨rfl, rfl⟩ | ⟨rfl, rfl⟩ | ⟨rfl, rfl⟩ | ⟨rfl, rfl⟩ | ⟨rfl, rfl⟩ | ⟨rfl, rfl⟩ | ⟨rfl, rfl⟩ | ⟨rfl, rfl⟩ | ⟨rfl, rfl⟩ | ⟨rfl, rfl⟩ | ⟨rfl, rfl⟩ | ⟨rfl, rfl⟩ | ⟨rfl, rfl⟩ | ⟨rfl, rfl⟩ | ⟨rfl, rfl⟩ | ⟨rfl, rfl⟩ | ⟨rfl, rfl⟩ | ⟨rfl, rfl⟩ | ⟨rfl, rfl⟩ | ⟨rfl, rfl⟩ | ⟨rfl, rfl⟩ | ⟨rfl, rfl⟩ | ⟨rfl, rfl⟩ | ⟨rfl, rfl⟩ | ⟨rfl, rfl⟩ | ⟨rfl, rfl⟩ | ⟨rfl, rfl⟩ | ⟨rfl, rfl⟩ | ⟨rfl, rfl⟩ | ⟨rfl, rfl⟩ | ⟨rfl, rfl⟩ | ⟨rfl, rfl⟩ | ⟨rfl, rfl⟩ | ⟨rfl, rfl⟩ | ⟨rfl, rfl⟩ | ⟨rfl, rfl⟩ | ⟨rfl, rfl⟩ | ⟨rfl, rfl⟩ | ⟨rfl, rfl⟩
  all_goals first
    | exact absurd rfl hz
    | skip
  all_goals
    try (have hcond := not_of_accepted hacc rfl
         simp only [bne_iff_ne, ne_eq, Decidable.not_not, not_lt, List.length_cons] at hcond)
  all_goals
    cases hreg
    have hp := server_args_length args
    rcases hc : Server.parseCommand (joinWithSpace (args.map stringBytes)) with
      _ | ⟨c0, _ | ⟨c1, _ | ⟨c2, rest⟩⟩⟩ <;>
    simp only [hc, List.length_cons, List.length_nil] at hp <;>
    first
      | omega
      | (obtain ⟨pairs, hpairs⟩ := hw c0 (lib.ParseFloat c1) (lib.ParseFloat c2)
         rcases hres : db.ZScoreRange c0 (lib.ParseFloat c1) (lib.ParseFloat c2) with
           ⟨res, _ | err⟩
         · rw [hres] at hpairs
           simp only at hpairs
           subst hpairs
           simp only [Server.ZScoreRangeRouter, hc, hres, Option.bind_eq_bind,
             Option.pure_def, List.get?_cons_zero, List.get?_cons_succ, Option.some_bind,
             writePairs_lines]
           split <;> rfl
         · simp [Server.ZScoreRangeRouter, hc, hres])
      | (simp [
           Server.SetRouter, Server.MSetRouter, Server.SetNxRouter, Server.MSetNxRouter,
           Server.GetRouter, Server.MGetRouter, Server.GetSetRouter,
           Server.RemoveRouter, Server.SLenRouter, Server.HSetRouter,
           Server.HSetNxRouter, Server.HGetRouter, Server.HGetAllRouter,
           Server.HDelRouter, Server.HLenRouter, Server.HExistRouter,
           Server.LPushRouter, Server.LRPushRouter, Server.LPopRouter,
           Server.LRPopRouter, Server.LInsertRouter, Server.LRInsertRouter,
           Server.LSetRouter, Server.LRemRouter, Server.LLenRouter, Server.LIndexRouter,
           Server.LRangeRouter, Server.LExistRouter, Server.SAddRouter,
           Server.SRemRouter, Server.SMoveRouter, Server.SUnionRouter,
           Server.SDiffRouter, Server.SScanRouter, Server.SCardRouter,
           Server.SIsMemberRouter, Server.ZAddRouter, Server.ZRemRouter,
           Server.ZScoreRouter, Server.ZCardRouter, Server.ZIsMemberRouter,
           hc, Server.sliceFrom]
         done)
      | (simp [
           Server.SetRouter, Server.MSetRouter, Server.SetNxRouter, Server.MSetNxRouter,
           Server.GetRouter, Server.MGetRouter, Server.GetSetRouter,
           Server.RemoveRouter, Server.SLenRouter, Server.HSetRouter,
           Server.HSetNxRouter, Server.HGetRouter, Server.HGetAllRouter,
           Server.HDelRouter, Server.HLenRouter, Server.HExistRouter,
           Server.LPushRouter, Server.LRPushRouter, Server.LPopRouter,
           Server.LRPopRouter, Server.LInsertRouter, Server.LRInsertRouter,
           Server.LSetRouter, Server.LRemRouter, Server.LLenRouter, Server.LIndexRouter,
           Server.LRangeRouter, Server.LExistRouter, Server.SAddRouter,
           Server.SRemRouter, Server.SMoveRouter, Server.SUnionRouter,
           Server.SDiffRouter, Server.SScanRouter, Server.SCardRouter,
           Server.SIsMemberRouter, Server.ZAddRouter, Server.ZRemRouter,
           Server.ZScoreRouter, Server.ZCardRouter, Server.ZIsMemberRouter,
           hc, Server.sliceFrom]
         repeat' split
         all_goals simp)

/-- The request `set foo bar` on the engine with an empty store: `SetRouter`
runs to its end. -/
theorem accepted_commands_do_not_panic_witness :
    (Server.SetRouter emptyDB (joinWithSpace (["foo", "bar"].map stringBytes))).isSome :=
  accepted_commands_do_not_panic emptyDB wholeNumberLib "set" ["foo", "bar"] 0
    (Server.SetRouter emptyDB) (by decide) rfl rfl (by decide) (fun _ _ _ => ⟨[], rfl⟩)

/-- C19, evaluated on the code: the shell line `ztop` passes `checkCommand`,
`handle` sends the frame with selector 42 and an empty payload, the server
splits the empty payload into one empty argument, and `ZTopRouter`, the handler
registered under 42, reads `c[1]`: a run-time panic, index out of range. The
same holds for `ztop z`, whose payload has one argument. -/
theorem ztop_accepted_but_handler_panics {F : Type} (db : Server.DB F) (lib : GoLib F)
    (conn : Conn) :
    checkCommand (parseCommand (fun c => c) (TrimSpace "ztop")) = some true ∧
    (∃ r, handle conn ["ztop"] = some r ∧
      r.1.written = conn.written ++ [[42, 0, 0, 0, 0, 0, 0, 0]]) ∧
    Server.registered db lib 42 = some (Server.ZTopRouter db lib) ∧
    Server.parseCommand [] = [[]] ∧
    Server.ZTopRouter db lib [] = none ∧
    checkCommand ["ztop", "z"] = some true ∧
    Server.parseCommand (stringBytes "z") = [stringBytes "z"] ∧
    Server.ZTopRouter db lib (stringBytes "z") = none :=
  ⟨by decide, handle_written conn "ztop" [] _ rfl, rfl, rfl, rfl, by decide, by decide, rfl⟩

/-! ## C20: storage options -/

/-- C20, evaluated on the code: the storage-engine configuration `NewServer`
builds takes `DBDir`, `MaxKeySize`, `MaxFileSize` and `WriteSync` from the
fields of the same name, but its `MaxValueSize` is `cfg.MaxKeySize`; for the
default configuration that is 1024 where `cfg.MaxValueSize` is 8192. -/
theorem NewServer_value_size_is_key_size (netDefault : Server.NetConfig)
    (dbDefault : Server.DBConfig) (cfg : Server.ServerConfig) :
    (Server.NewServer netDefault dbDefault cfg).2.DBDir = cfg.DBDir ∧
    (Server.NewServer netDefault dbDefault cfg).2.MaxKeySize = cfg.MaxKeySize ∧
    (Server.NewServer netDefault dbDefault cfg).2.MaxFileSize = cfg.MaxFileSize ∧
    (Server.NewServer netDefault dbDefault cfg).2.WriteSync = cfg.WriteSync ∧
    (Server.NewServer netDefault dbDefault cfg).2.MaxValueSize = cfg.MaxKeySize ∧
    (Server.NewServer netDefault dbDefault Server.DefaultServerConfig).2.MaxValueSize = 1024 ∧
    Server.DefaultServerConfig.MaxValueSize = 8192 :=
  ⟨rfl, rfl, rfl, rfl, rfl, rfl, rfl⟩

end CaskDBNet
